import Mathlib

/-!
Verification development for the XML-to-binary compiler in `src/xb-builder.c`
(libxmlb's `XbBuilder`).  The builder ingests XML imports, builds an in-memory
forest of `XbBuilderNode` payloads hanging off `GNode` tree spines, and emits a
binary blob: header, node table (node / attribute / sentinel records) and a
deduplicated string table.

Modelling conventions:
* `XbBuilderNode` objects live in an arena (`Arena`, a list indexed by object
  id); `g_object_ref` sharing is represented by two tree positions carrying the
  same id.  Fresh objects are zero-initialised like `g_object_new`.
* The `GNode` tree is the mutual inductive `GT`/`GTs`; the synthetic root is
  implicit (a forest of its children), matching the `bn == NULL` early-return
  in every traversal callback.
* `g_node_traverse (G_PRE_ORDER, G_TRAVERSE_ALL, cb)` is modelled as a fold of
  the callback over the pre-order item list (`forestItems`), each item carrying
  the data needed by the callbacks: depth (`g_node_depth`), the parent GNode's
  payload id and the next sibling's payload id.
* Machine integers are `Nat`; the byte buffer `GString` holding the node table
  is a list of sized chunks, with byte offsets computed from chunk sizes.
-/

namespace Xb

/-! ### Binary layout constants

Modelled from the spec: the record sizes come from the layout in §6.1
(`xb-silo-private.h` is not part of the sources under review).  A NodeRecord is
1 flags byte + 1 `nr_attrs` byte + four `u32` fields = 18 bytes, an AttrRecord
is two `u32` = 8 bytes, and a SentinelRecord is the 1-byte record header, which
matches the `+1 for the sentinel` accounting in `xb_builder_nodetab_size_cb`.
The header size only ever cancels in the claims (the `strtab` field counts it
and the blob starts with it), so its exact value is immaterial; we use the
field list of §6.1 with 4 padding bytes. -/

def sizeofXbSiloHeader : Nat := 36
def sizeofXbSiloNode : Nat := 18
def sizeofXbSiloAttr : Nat := 8
def sizeofGuint32 : Nat := 4

/-- Modelled from the spec: fixed identification sequence and layout version
(§6.1); the concrete values are from `xb-silo-private.h`, not under review. -/
def XB_SILO_MAGIC : Nat := 0x624c4d58
def XB_SILO_VERSION : Nat := 4

/-! ### SHA-1 (`_uuid_generate_sha1` fallback path)

The fallback branch of `_uuid_generate_sha1` (lines 542-555) hashes only the
name with `GChecksum` SHA-1 and copies the first 16 digest bytes into the
uuid; the namespace argument is unused there.  This is a by-the-book SHA-1
over a list of bytes. -/

def M32 : Nat := 4294967296

def rotl32 (n x : Nat) : Nat :=
  (Nat.lor (Nat.shiftLeft x n) (Nat.shiftRight x (32 - n))) % M32

def sha1Pad (msg : List Nat) : List Nat :=
  let L := msg.length
  let k := (64 + 55 - L % 64) % 64
  let bits := 8 * L
  msg ++ [0x80] ++ List.replicate k 0 ++
    [bits / 2^56 % 256, bits / 2^48 % 256, bits / 2^40 % 256, bits / 2^32 % 256,
     bits / 2^24 % 256, bits / 2^16 % 256, bits / 2^8 % 256, bits % 256]

def bytesToWords : List Nat → List Nat
  | b0 :: b1 :: b2 :: b3 :: rest => (((b0 * 256 + b1) * 256 + b2) * 256 + b3) :: bytesToWords rest
  | _ => []

def sha1Ext (w : List Nat) (i : Nat) : List Nat :=
  w ++ [rotl32 1 (Nat.xor (Nat.xor (w.getD (i-3) 0) (w.getD (i-8) 0))
        (Nat.xor (w.getD (i-14) 0) (w.getD (i-16) 0)))]

def sha1F (i b c d : Nat) : Nat :=
  if i < 20 then Nat.lor (Nat.land b c) (Nat.land ((M32-1) - b) d)
  else if i < 40 then Nat.xor (Nat.xor b c) d
  else if i < 60 then Nat.lor (Nat.lor (Nat.land b c) (Nat.land b d)) (Nat.land c d)
  else Nat.xor (Nat.xor b c) d

def sha1K (i : Nat) : Nat :=
  if i < 20 then 0x5a827999 else if i < 40 then 0x6ed9eba1
  else if i < 60 then 0x8f1bbcdc else 0xca62c1d6

def sha1Round (w : List Nat) (st : Nat × Nat × Nat × Nat × Nat) (i : Nat) :
    Nat × Nat × Nat × Nat × Nat :=
  let (a, b, c, d, e) := st
  let t := (rotl32 5 a + sha1F i b c d + e + sha1K i + w.getD i 0) % M32
  (t, a, rotl32 30 b, c, d)

def sha1Block (h : Nat × Nat × Nat × Nat × Nat) (block : List Nat) :
    Nat × Nat × Nat × Nat × Nat :=
  let w0 := bytesToWords block
  let w := (List.range 80).foldl (fun w i => if i < 16 then w else sha1Ext w i) w0
  let (a, b, c, d, e) := (List.range 80).foldl (sha1Round w) h
  ((h.1 + a) % M32, (h.2.1 + b) % M32, (h.2.2.1 + c) % M32, (h.2.2.2.1 + d) % M32,
   (h.2.2.2.2 + e) % M32)

def chunks64 : Nat → List Nat → List (List Nat)
  | 0, _ => []
  | _, [] => []
  | fuel+1, l => l.take 64 :: chunks64 fuel (l.drop 64)

def wordBytes (x : Nat) : List Nat := [x / 2^24 % 256, x / 2^16 % 256, x / 2^8 % 256, x % 256]

def sha1Bytes (msg : List Nat) : List Nat :=
  let padded := sha1Pad msg
  let (a, b, c, d, e) := (chunks64 padded.length padded).foldl sha1Block
    (0x67452301, 0xefcdab89, 0x98badcfe, 0x10325476, 0xc3d2e1f0)
  wordBytes a ++ wordBytes b ++ wordBytes c ++ wordBytes d ++ wordBytes e

/-- Byte view of a C string (the builder only ever hashes and stores the bytes
of NUL-free strings; we use the character codes). -/
def strBytes (s : String) : List Nat := s.toList.map Char.toNat

/-- Modelled from the spec: `_uuid_generate_sha1` (fallback branch, in the
source) truncates the SHA-1 of the accumulator to the 16 uuid bytes; the zero
namespace is unused by that branch. -/
def uuidBytes (acc : String) : List Nat := (sha1Bytes (strBytes acc)).take 16

/-! ### BuilderNode arena -/

/-- One `XbBuilderNodeAttr`: name/value plus the interned string-table offsets
filled in by the strtab passes. -/
structure BAttr where
  name : String
  value : String
  nameIdx : Nat := 0
  valueIdx : Nat := 0
deriving Repr, DecidableEq

/-- Modelled from the spec: an `XbBuilderNode` (§3, `xb-builder-node.c` is not
under review).  `element`, optional `text`, ordered `attrs`, flags
(`IGNORE_CDATA`, `LITERAL_TEXT`), `children` (builder-node child ids, used by
info trees and `xb_builder_import_node` trees), and the transient compile
slots `elementIdx`/`textIdx`/`offset`, zero-initialised at creation. -/
structure BN where
  element : String
  text : Option String := none
  attrs : List BAttr := []
  ignore : Bool := false
  literal : Bool := false
  children : List Nat := []
  elementIdx : Nat := 0
  textIdx : Nat := 0
  offset : Nat := 0
deriving Repr, DecidableEq

instance : Inhabited BN := ⟨{ element := "" }⟩

/-- Arena of `XbBuilderNode` objects; an object id is its index. -/
abbrev Arena := List BN

def aget : Arena → Nat → BN
  | [], _ => default
  | x :: _, 0 => x
  | _ :: rest, i+1 => aget rest i

def aset : Arena → Nat → BN → Arena
  | [], _, _ => []
  | _ :: rest, 0, x => x :: rest
  | y :: rest, i+1, x => y :: aset rest i x

/-! ### GNode trees

`GT`/`GTs` model the `GNode` spine; the payload is an arena id.  The synthetic
root (`helper->root`, data `NULL`) is kept implicit: a forest is the list of
its children. -/

mutual
inductive GT where
  | mk (bid : Nat) (kids : GTs)
deriving Repr, DecidableEq
inductive GTs where
  | nil
  | cons (t : GT) (ts : GTs)
deriving Repr, DecidableEq
end

def GT.bid : GT → Nat
  | .mk b _ => b

def GTs.ofList : List GT → GTs
  | [] => .nil
  | t :: ts => .cons t (GTs.ofList ts)

def GTs.toList : GTs → List GT
  | .nil => []
  | .cons t ts => t :: GTs.toList ts

mutual
def GT.sz : GT → Nat
  | .mk _ kids => 1 + GTs.sz kids
def GTs.sz : GTs → Nat
  | .nil => 0
  | .cons t ts => GT.sz t + GTs.sz ts
end

def szL (l : List GT) : Nat := (l.map GT.sz).sum

/-! ### Traversal orders

`g_node_traverse (G_PRE_ORDER, G_TRAVERSE_ALL, -1, cb, data)` visits the
synthetic root (whose `NULL` data every callback skips) and then every node in
pre-order; we enumerate the non-root nodes as `Item`s carrying what the
callbacks read from the `GNode`: its payload id, `g_node_depth` (root = 1, so
top-level elements are at depth 2), the payload id of `n->parent` (`none`
encodes the root's `NULL` data) and the payload id of
`g_node_next_sibling (n)`. -/

structure Item where
  bid : Nat
  depth : Nat
  parentBid : Option Nat
  nextBid : Option Nat
deriving Repr, DecidableEq

def headBid : GTs → Option Nat
  | .nil => none
  | .cons (.mk b _) _ => some b

mutual
def itemsT : GT → Nat → Option Nat → Option Nat → List Item
  | .mk b kids, d, pb, nx =>
    { bid := b, depth := d, parentBid := pb, nextBid := nx } :: itemsF kids (d+1) (some b)
def itemsF : GTs → Nat → Option Nat → List Item
  | .nil, _, _ => []
  | .cons t ts, d, pb => itemsT t d pb (headBid ts) ++ itemsF ts d pb
end

/-- Pre-order items of the whole forest (children of the synthetic root sit at
`g_node_depth` 2 and their parent GNode is the root, data `NULL`). -/
def forestItems (kids : List GT) : List Item := itemsF (GTs.ofList kids) 2 none

/-- `g_node_traverse (G_LEVEL_ORDER, ...)`: breadth-first over the forest
(the root is visited first but skipped by every callback).  Written with
explicit fuel so that it evaluates by kernel reduction; `szL q` is exactly the
number of visits. -/
def levelOrderFuel : Nat → List GT → List Nat
  | 0, _ => []
  | _, [] => []
  | fuel+1, GT.mk b kids :: rest => b :: levelOrderFuel fuel (rest ++ kids.toList)

def levelOrder (kids : List GT) : List Nat := levelOrderFuel (szL kids) kids

/-! ### String interner (`xb_builder_compile_add_to_strtab`, lines 41-56)

`helper->strtab` is a byte buffer (here `List Char`; strings are appended with
their NUL terminator) and `helper->strtab_hash` maps an already-interned
string to its offset (here an insertion-ordered association list, which is all
the hash table's lookup/insert/size behaviour that is used). -/

def nulChar : Char := Char.ofNat 0

structure Strtab where
  buf : List Char := []
  tbl : List (String × Nat) := []
deriving Repr, DecidableEq

def strtabLookup (tbl : List (String × Nat)) (s : String) : Option Nat :=
  (tbl.find? (fun p => p.1 == s)).map (fun p => p.2)

def xb_builder_compile_add_to_strtab (st : Strtab) (s : String) : Strtab × Nat :=
  match strtabLookup st.tbl s with
  | some idx => (st, idx)
  | none =>
    let idx := st.buf.length
    ({ buf := st.buf ++ s.toList ++ [nulChar], tbl := st.tbl ++ [(s, idx)] }, idx)

/-- The string stored at offset `o` of the string table: the characters up to
the next NUL terminator. -/
def readStr (buf : List Char) (o : Nat) : List Char :=
  (buf.drop o).takeWhile (fun c => c != nulChar)

def noNul (s : String) : Bool := s.toList.all (fun c => c != nulChar)

/-! ### Parser adapter (`xb_builder_compile_*_cb`, lines 69-154)

The external pull tokenizer (`GMarkupParseContext`) is abstracted as the list
of events it delivers for one import.  The in-construction position
(`helper->current`) is a zipper: a stack of open frames, each holding the
frame's payload id (`none` for the synthetic root at the bottom) and the
`GNode` children accumulated so far (children are appended on start-element,
exactly like `g_node_append_data`). -/

inductive XEvent where
  | start (name : String) (attrs : List (String × String))
  | endE
  | text (s : String)
deriving Repr, DecidableEq

structure Flags where
  literalText : Bool := false
  nativeLangs : Bool := false
  ignoreInvalid : Bool := false
deriving Repr, DecidableEq

inductive XbErrKind where
  | invalidData
  | ioErr
  | cancelled
  | other
deriving Repr, DecidableEq

structure XbErr where
  kind : XbErrKind
  msg : String
deriving Repr, DecidableEq

structure PHelper where
  arena : Arena
  stack : List (Option Nat × List GT)
deriving Repr, DecidableEq

def g_ascii_isspace (c : Char) : Bool :=
  c == ' ' || c == '\t' || c == '\n' || c == '\x0b' || c == '\x0c' || c == '\r'

def g_strv_contains (locales : List String) (s : String) : Bool := locales.contains s

/-- The `xml:lang` loop of `xb_builder_compile_start_element_cb` (lines
89-96): every attribute named `xml:lang` whose value is not in the locale list
adds the `IGNORE_CDATA` flag. -/
def langLoop (locales : List String) (attrs : List (String × String)) (ign : Bool) : Bool :=
  attrs.foldl (fun ign nv =>
    if nv.1 == "xml:lang" && !(g_strv_contains locales nv.2) then true else ign) ign

/-- Whether `helper->current` carries an `IGNORE_CDATA` payload (the parent
check of start-element, line 84; the root's `NULL` data counts as not
ignored). -/
def cursorIgnored (h : PHelper) : Bool :=
  match h.stack with
  | (some pb, _) :: _ => (aget h.arena pb).ignore
  | _ => false

def xb_builder_compile_start_element_cb (flags : Flags) (locales : List String)
    (h : PHelper) (name : String) (attrs : List (String × String)) : PHelper :=
  let parentIgn := cursorIgnored h
  let ign := parentIgn
  let ign := if !ign && flags.nativeLangs then langLoop locales attrs ign else ign
  let battrs : List BAttr :=
    if ign then [] else attrs.map (fun nv => { name := nv.1, value := nv.2 })
  let bn : BN := { element := name, ignore := ign, attrs := battrs }
  { arena := h.arena ++ [bn], stack := (some h.arena.length, []) :: h.stack }

/-- `xb_builder_compile_node_tree` (lines 58-67) converted to the pure
setting: build the `GNode` spine for the builder-node tree rooted at arena id
`b`.  The payloads are the *same* arena ids (`g_object_ref (bn)`, not a
copy).  `fuel` bounds the recursion depth; any value at least the tree depth
(the arena size suffices for acyclic children graphs) yields the full tree. -/
def nodeToGT (arena : Arena) : Nat → Nat → GT
  | 0, b => .mk b .nil
  | fuel+1, b =>
    .mk b (GTs.ofList (((aget arena b).children).map (fun c => nodeToGT arena fuel c)))

/-- A graft strategy: how `xb_builder_compile_end_element_cb` attaches the info
tree of the import under the cursor.  The code's strategy is `graftRef`
below; the spec's claimed deep copy is `graftDeepCopy`. -/
abbrev GraftFn := Arena → Nat → Arena × GT

/-- The source's graft (line 117): `xb_builder_compile_node_tree` refs the
existing builder nodes, the arena is untouched. -/
def graftRef : GraftFn := fun arena i => (arena, nodeToGT arena (arena.length + 1) i)

/-- Deep copy of a builder-node tree: fresh ids for every node (this is what
the spec's words describe; it is not what the code does). -/
def deepCopyBN (fuel : Nat) : Arena → Nat → Arena × Nat :=
  let rec go : Nat → Arena → Nat → Arena × Nat
    | 0, a, _ => (a ++ [default], a.length)
    | fuel+1, a, b =>
      let src := aget a b
      let r := (src.children).foldl (fun (acc : Arena × List Nat) c =>
        let r2 := go fuel acc.1 c
        (r2.1, acc.2 ++ [r2.2])) (a, [])
      (r.1 ++ [{ src with children := r.2 }], r.1.length)
  go fuel

def graftDeepCopy : GraftFn := fun arena i =>
  let r := deepCopyBN (arena.length + 1) arena i
  (r.1, nodeToGT r.1 (r.1.length + 1) r.2)

def xb_builder_compile_end_element_cb (g : GraftFn) (info : Option Nat)
    (h : PHelper) : PHelper :=
  match h.stack with
  | [] => h
  | (cb, ckids) :: rest =>
    let st : Arena × List GT :=
      match rest, info with
      | [_], some i =>
        let r := g h.arena i
        (r.1, ckids ++ [r.2])
      | _, _ => (h.arena, ckids)
    match cb, rest with
    | some b, (pb, pkids) :: rest2 =>
      { arena := st.1, stack := (pb, pkids ++ [GT.mk b (GTs.ofList st.2)]) :: rest2 }
    | _, _ => { arena := st.1, stack := rest }

/-- Modelled from the spec: `xb_builder_node_set_text` (not under review)
stores the chunk verbatim (§4.3); `xb_builder_compile_text_cb` (lines 123-154)
discards empty, ignored or all-whitespace chunks, and tags the node
`LITERAL_TEXT` when the compile flag is set. -/
def xb_builder_compile_text_cb (flags : Flags) (h : PHelper) (s : String) : PHelper :=
  match h.stack with
  | (some b, _) :: _ =>
    if s.length = 0 then h
    else if (aget h.arena b).ignore then h
    else if s.toList.all g_ascii_isspace then h
    else
      let bn := if flags.literalText then { (aget h.arena b) with literal := true }
        else aget h.arena b
      { h with arena := aset h.arena b { bn with text := some s } }
  | _ => h

def runEvents (g : GraftFn) (flags : Flags) (locales : List String) (info : Option Nat)
    (h : PHelper) : List XEvent → PHelper
  | [] => h
  | e :: es =>
    let h := match e with
      | .start name attrs => xb_builder_compile_start_element_cb flags locales h name attrs
      | .endE => xb_builder_compile_end_element_cb g info h
      | .text s => xb_builder_compile_text_cb flags h s
    runEvents g flags locales info h es

/-- Recover the root's children from the frame stack.  In C the `GNode`s were
appended to their parents already at start-element; the stack is only a
cursor, so unzipping it reproduces the tree the C code holds, including
half-open elements left by a failed parse. -/
def commitStack : List (Option Nat × List GT) → List GT → List GT
  | [], _ => []
  | [(_, kids)], carry => kids ++ carry
  | (cb, ckids) :: rest, carry =>
    commitStack rest
      (match cb with
       | some b => [GT.mk b (GTs.ofList (ckids ++ carry))]
       | none => [])

/-! ### One import (`xb_builder_compile_import`, lines 261-306)

An `XbBuilderImport` contributes: its identity token (`get_guid`), the events
its byte stream produces through the tokenizer, an optional error the
stream/tokenizer raises after those events (`g_input_stream_read` failing or
`g_markup_parse_context_parse` rejecting a chunk), and the optional info tree
(`get_info`, an arena id). -/

structure Import where
  ident : String
  events : List XEvent := []
  tailErr : Option XbErr := none
  info : Option Nat := none
deriving Repr, DecidableEq

def mismatchedXml : XbErr := { kind := .invalidData, msg := "Mismatched XML" }

/-- Parse one import starting from a cursor freshly reset to the synthetic
root over the already-accumulated children (`helper->current = helper->root`,
line 636 of `xb_builder_compile`).  Returns the arena, the root's children
(partial trees from a failed parse included, as in C) and the error if any:
the stream/tokenizer error verbatim, or `Mismatched XML` when the stream ends
with the cursor away from the root (lines 296-302). -/
def xb_builder_compile_import (g : GraftFn) (flags : Flags) (locales : List String)
    (imp : Import) (arena : Arena) (rootKids : List GT) :
    Arena × List GT × Option XbErr :=
  let h := runEvents g flags locales imp.info ⟨arena, [(none, rootKids)]⟩ imp.events
  let kids := commitStack h.stack []
  match imp.tailErr with
  | some e => (h.arena, kids, some e)
  | none =>
    if h.stack.length = 1 then (h.arena, kids, none)
    else (h.arena, kids, some mismatchedXml)

/-- The per-import loop of `xb_builder_compile` (lines 630-652): a failing
input is skipped under `IGNORE_INVALID`, otherwise its error aborts the
compile wrapped with a prefix naming the import. -/
def compileImportLoop (g : GraftFn) (flags : Flags) (locales : List String) :
    List Import → Arena → List GT → Except XbErr (Arena × List GT)
  | [], arena, kids => .ok (arena, kids)
  | imp :: imps, arena, kids =>
    let r := xb_builder_compile_import g flags locales imp arena kids
    match r.2.2 with
    | some e =>
      if flags.ignoreInvalid then compileImportLoop g flags locales imps r.1 r.2.1
      else .error { e with msg := "failed to compile " ++ imp.ident ++ ": " ++ e.msg }
    | none => compileImportLoop g flags locales imps r.1 r.2.1

/-! ### Pass A: size (`xb_builder_nodetab_size_cb`, lines 384-399) -/

/-- Modelled from the spec: `xb_builder_node_size` (§4.1) is
`sizeof(XbSiloNode)` plus one `XbSiloAttr` per attribute. -/
def xb_builder_node_size (bn : BN) : Nat :=
  sizeofXbSiloNode + bn.attrs.length * sizeofXbSiloAttr

def xb_builder_nodetab_size_cb (arena : Arena) (sz : Nat) (it : Item) : Nat :=
  let bn := aget arena it.bid
  if bn.ignore then sz
  else
    let sz := sz + xb_builder_node_size bn + 1
    if bn.text.isNone then sz - sizeofGuint32 else sz

/-! ### Pass B: string interning (lines 308-382, driven at lines 665-674) -/

def strtabElementNamesStep (st : Arena × Strtab) (b : Nat) : Arena × Strtab :=
  let bn := aget st.1 b
  if bn.ignore then st
  else
    let r := xb_builder_compile_add_to_strtab st.2 bn.element
    (aset st.1 b { bn with elementIdx := r.2 }, r.1)

def internAttrNames (st : Strtab) : List BAttr → Strtab × List BAttr
  | [] => (st, [])
  | a :: rest =>
    let r := xb_builder_compile_add_to_strtab st a.name
    let rr := internAttrNames r.1 rest
    (rr.1, { a with nameIdx := r.2 } :: rr.2)

def strtabAttrNameStep (st : Arena × Strtab) (b : Nat) : Arena × Strtab :=
  let bn := aget st.1 b
  if bn.ignore then st
  else
    let r := internAttrNames st.2 bn.attrs
    (aset st.1 b { bn with attrs := r.2 }, r.1)

def internAttrValues (st : Strtab) : List BAttr → Strtab × List BAttr
  | [] => (st, [])
  | a :: rest =>
    let r := xb_builder_compile_add_to_strtab st a.value
    let rr := internAttrValues r.1 rest
    (rr.1, { a with valueIdx := r.2 } :: rr.2)

def strtabAttrValueStep (st : Arena × Strtab) (b : Nat) : Arena × Strtab :=
  let bn := aget st.1 b
  if bn.ignore then st
  else
    let r := internAttrValues st.2 bn.attrs
    (aset st.1 b { bn with attrs := r.2 }, r.1)

def strtabTextStep (st : Arena × Strtab) (b : Nat) : Arena × Strtab :=
  let bn := aget st.1 b
  if bn.ignore then st
  else
    match bn.text with
    | none => st
    | some t =>
      let r := xb_builder_compile_add_to_strtab st.2 t
      (aset st.1 b { bn with textIdx := r.2 }, r.1)

/-! ### Node-table buffer

The `GString` into which header, node records, attribute records and
sentinels are appended, as a list of sized chunks; a byte offset addresses the
chunk that starts there. -/

structure Header where
  magic : Nat := XB_SILO_MAGIC
  version : Nat := XB_SILO_VERSION
  strtab : Nat := 0
  strtabNtags : Nat := 0
  guid : List Nat := List.replicate 16 0
deriving Repr, DecidableEq

instance : Inhabited Header := ⟨{}⟩

/-- An emitted `XbSiloNode` with `is_node = TRUE`; sentinels (`is_node =
FALSE`) are their own chunk kind. -/
structure SiloNodeRec where
  hasText : Bool
  nrAttrs : Nat
  elementName : Nat
  next : Nat := 0
  parent : Nat := 0
  text : Nat := 0
deriving Repr, DecidableEq

inductive Chunk where
  | headerC (h : Header)
  | nodeC (r : SiloNodeRec)
  | attrC (nameIdx valueIdx : Nat)
  | sentinelC
deriving Repr, DecidableEq

/-- Bytes occupied by a chunk: a node record drops the `text` field when
`has_text` is unset (lines 437-441); a sentinel is the 1-byte record header
(`xb_silo_node_get_size` of a non-node, the `+1` of the size pass). -/
def chunkSize : Chunk → Nat
  | .headerC _ => sizeofXbSiloHeader
  | .nodeC r => if r.hasText then sizeofXbSiloNode else sizeofXbSiloNode - sizeofGuint32
  | .attrC _ _ => sizeofXbSiloAttr
  | .sentinelC => 1

def blen (cs : List Chunk) : Nat := (cs.map chunkSize).sum

/-- The chunk starting exactly at byte offset `off`, if any. -/
def chunkAt : List Chunk → Nat → Option Chunk
  | [], _ => none
  | c :: cs, off =>
    if off = 0 then some c
    else if off < chunkSize c then none
    else chunkAt cs (off - chunkSize c)

def nodeRecAt (cs : List Chunk) (off : Nat) : Option SiloNodeRec :=
  match chunkAt cs off with
  | some (.nodeC r) => some r
  | _ => none

def fixChunk (f : SiloNodeRec → SiloNodeRec) : Chunk → Chunk
  | .nodeC r => .nodeC (f r)
  | c => c

/-- In-place update of the node record starting at byte offset `off`
(`xb_builder_get_node` + field assignments in the fixup callback).  The C
code would reinterpret whatever bytes sit there; every offset the fixup pass
actually dereferences addresses a node record, and the model leaves other
offsets unchanged. -/
def fixAt : List Chunk → Nat → (SiloNodeRec → SiloNodeRec) → List Chunk
  | [], _, _ => []
  | c :: cs, off, f =>
    if off = 0 then fixChunk f c :: cs
    else if off < chunkSize c then c :: cs
    else c :: fixAt cs (off - chunkSize c) f

/-! ### Pass C: emit (`xb_builder_nodetab_write_cb`, lines 406-474) -/

structure EmitSt where
  arena : Arena
  chunks : List Chunk
  level : Nat
deriving Repr, DecidableEq

def siloNodeOf (bn : BN) : SiloNodeRec :=
  { hasText := bn.text.isSome
    nrAttrs := bn.attrs.length
    elementName := bn.elementIdx
    next := 0
    parent := 0
    text := bn.textIdx }

def xb_builder_nodetab_write_cb (st : EmitSt) (it : Item) : EmitSt :=
  let bn := aget st.arena it.bid
  if bn.ignore then st
  else
    let sents := if it.depth ≤ st.level then st.level - it.depth + 1 else 0
    let chunks := st.chunks ++ List.replicate sents Chunk.sentinelC
    let off := blen chunks
    let arena := aset st.arena it.bid { bn with offset := off }
    let chunks := chunks ++ [Chunk.nodeC (siloNodeOf bn)]
      ++ bn.attrs.map (fun a => Chunk.attrC a.nameIdx a.valueIdx)
    { arena := arena, chunks := chunks, level := it.depth }

/-- Trailing sentinels after the write traversal (lines 689-692): `level - 1`
of them when `level > 0`. -/
def emitTrailing (st : EmitSt) : EmitSt :=
  if st.level > 0 then
    { st with chunks := st.chunks ++ List.replicate (st.level - 1) Chunk.sentinelC }
  else st

/-! ### Pass D: fixups (`xb_builder_nodetab_fix_cb`, lines 482-517) -/

def fixRec (arena : Arena) (it : Item) (r : SiloNodeRec) : SiloNodeRec :=
  let r := match it.parentBid with
    | some pb => { r with parent := (aget arena pb).offset }
    | none => r
  match it.nextBid with
  | some nb => { r with next := (aget arena nb).offset }
  | none => r

def xb_builder_nodetab_fix_cb (arena : Arena) (cs : List Chunk) (it : Item) : List Chunk :=
  let bn := aget arena it.bid
  if bn.ignore then cs
  else fixAt cs bn.offset (fixRec arena it)

/-! ### The builder and `xb_builder_compile` (lines 600-708) -/

/-- The `XbBuilder` instance state: recorded imports, manually imported node
trees (`xb_builder_import_node`, arena ids), the arena holding all
pre-existing builder nodes (info trees and imported trees), and the GUID
accumulator `self->guid`. -/
structure Builder where
  imports : List Import := []
  nodes : List Nat := []
  arena : Arena := []
  guid : String := ""
deriving Repr, DecidableEq

/-- `xb_builder_append_guid` (lines 789-795). -/
def xb_builder_append_guid (self : String) (guid : String) : String :=
  (if self.length > 0 then self ++ "&" else self) ++ guid

/-- `xb_builder_generate_guid` (lines 557-568): unconditionally hashes the
accumulator (even when empty), unlike the compile-time header guid. -/
def xb_builder_generate_guid (acc : String) : List Nat := uuidBytes acc

/-- The header `guid` field: all zeroes unless the accumulator is non-empty
(lines 606-613 and 676-682). -/
def headerGuidField (acc : String) : List Nat :=
  if acc.length > 0 then uuidBytes acc else List.replicate 16 0

/-- The success path of `xb_builder_import_xml` / `xb_builder_import_file`
(lines 181-184, 255-258): record the import and fold its identity into the
GUID accumulator. -/
def xb_builder_add_import (b : Builder) (imp : Import) : Builder :=
  { b with guid := xb_builder_append_guid b.guid imp.ident
           imports := b.imports ++ [imp] }

/-- All intermediate states of one compile, staged so that the theorems can
speak about individual passes. -/
structure CompileTrace where
  arenaP : Arena
  kids : List GT
  items : List Item
  nodetabsz : Nat
  arenaB : Arena
  strtab : Strtab
  ntags : Nat
  hdr : Header
  emitSt : EmitSt
  chunks : List Chunk
deriving Repr, DecidableEq

structure Blob where
  chunks : List Chunk
  strtab : List Char
deriving Repr, DecidableEq

def blobHdr (bl : Blob) : Header :=
  match bl.chunks with
  | .headerC h :: _ => h
  | _ => default

/-- Everything `xb_builder_compile` does after the import loop succeeded:
graft the manually imported node trees, run passes A (size), B (four interning
traversals in level order, recording `strtab_ntags` after the element-name
pass), C (pre-order emit plus trailing sentinels) and D (fixups). -/
def compileTables (b : Builder) (arena : Arena) (kids : List GT) : CompileTrace :=
  let kids := kids ++ b.nodes.map (fun nid => nodeToGT arena (arena.length + 1) nid)
  let items := forestItems kids
  let nodetabsz := items.foldl (xb_builder_nodetab_size_cb arena) sizeofXbSiloHeader
  let lbids := levelOrder kids
  let stB := lbids.foldl strtabElementNamesStep (arena, {})
  let ntags := stB.2.tbl.length
  let stB := lbids.foldl strtabAttrNameStep stB
  let stB := lbids.foldl strtabAttrValueStep stB
  let stB := lbids.foldl strtabTextStep stB
  let hdr : Header := { strtab := nodetabsz
                        strtabNtags := ntags
                        guid := headerGuidField b.guid }
  let st0 : EmitSt := { arena := stB.1, chunks := [Chunk.headerC hdr], level := 0 }
  let stE := emitTrailing (items.foldl xb_builder_nodetab_write_cb st0)
  let chunks := items.foldl (xb_builder_nodetab_fix_cb stE.arena) stE.chunks
  { arenaP := arena, kids := kids, items := items, nodetabsz := nodetabsz
    arenaB := stB.1, strtab := stB.2, ntags := ntags, hdr := hdr
    emitSt := stE, chunks := chunks }

def compileTrace (g : GraftFn) (flags : Flags) (locales : List String) (b : Builder) :
    Except XbErr CompileTrace :=
  match compileImportLoop g flags locales b.imports b.arena [] with
  | .error e => .error e
  | .ok r => .ok (compileTables b r.1 r.2)

/-- `xb_builder_compile`: blob = header and node table (`chunks`) followed by
the string table.  Loading the blob into the silo reader is outside the oven
(spec §7 calls its refusal a programmer error). -/
def xb_builder_compile (flags : Flags) (locales : List String) (b : Builder) :
    Except XbErr Blob :=
  match compileTrace graftRef flags locales b with
  | .error e => .error e
  | .ok t => .ok { chunks := t.chunks, strtab := t.strtab.buf }

/-! ### `xb_builder_ensure` (lines 727-778)

Modelled from the spec: the silo-side helpers (`xb_silo_load_from_file`,
`xb_silo_get_guid`, `xb_silo_get_bytes`, `xb_silo_load_from_bytes`,
`xb_silo_save_to_file`) are not under review.  A loaded silo is its embedded
guid (16 bytes; `xb_silo_get_guid` unparses them, and `uuid_unparse` is
injective, so comparing strings is comparing the byte arrays) plus its bytes.
The environment supplies the outcome of the file-load attempt, what a full
compile would produce, and whether the final write succeeds;
`xb_silo_load_from_bytes` on the scratch blob is modelled as succeeding since
those bytes were just loaded successfully from the file. -/

structure SiloT where
  guid : List Nat
  bytes : List Nat
deriving Repr, DecidableEq

inductive EnsureAction where
  | reused
  | rebound
  | recompiled
deriving Repr, DecidableEq

structure EnsureEnv where
  fileSilo : Option SiloT
  compileRes : Except XbErr SiloT
  saveErr : Option XbErr
deriving Repr

def ensureFallback (env : EnsureEnv) : Except XbErr (SiloT × EnsureAction) :=
  match env.compileRes with
  | .error e => .error e
  | .ok s =>
    match env.saveErr with
    | some e => .error e
    | none => .ok (s, .recompiled)

def xb_builder_ensure (cur : SiloT) (wantGuid : List Nat) (env : EnsureEnv) :
    Except XbErr (SiloT × EnsureAction) :=
  match env.fileSilo with
  | some tmp =>
    if tmp.guid = cur.guid then .ok (cur, .reused)
    else if tmp.guid = wantGuid then .ok (tmp, .rebound)
    else ensureFallback env
  | none => ensureFallback env

/-! ### Derived notions used by the statements -/

/-- The structural content of a builder node: everything except the transient
compile slots (`elementIdx`, `textIdx`, per-attribute indices, `offset`). -/
def structuralOf (bn : BN) :
    String × Option String × List (String × String) × List Nat × Bool × Bool :=
  (bn.element, bn.text, bn.attrs.map (fun a => (a.name, a.value)), bn.children,
   bn.ignore, bn.literal)

/-- Bytes a live node contributes to the node table in the write pass: its
node record (text field elided when absent) plus its attribute records. -/
def emitBytesOf (bn : BN) : Nat :=
  (if bn.text.isSome then sizeofXbSiloNode else sizeofXbSiloNode - sizeofGuint32)
    + bn.attrs.length * sizeofXbSiloAttr

/-- The (bytes, depth) sequence of live nodes in traversal order. -/
def liveList (arena : Arena) (items : List Item) : List (Nat × Nat) :=
  items.filterMap (fun it =>
    let bn := aget arena it.bid
    if bn.ignore then none else some (emitBytesOf bn, it.depth))

/-- Sentinels emitted before each node of the write pass, starting from
emitter level `l`. -/
def sentAux : Nat → List Nat → Nat
  | _, [] => 0
  | l, d :: rest => (if d ≤ l then l - d + 1 else 0) + sentAux d rest

/-- The emitter level after processing the depth sequence. -/
def lastLevel : Nat → List Nat → Nat
  | l, [] => l
  | _, d :: rest => lastLevel d rest

/- Flags-hereditary forests: inside an `IGNORE_CDATA` subtree every node is
ignored.  The parser's start-element inheritance establishes this for parsed
elements; a live info tree grafted under an ignored element breaks it. -/
mutual
def allIgnT (arena : Arena) : GT → Bool
  | .mk b kids => (aget arena b).ignore && allIgnF arena kids
def allIgnF (arena : Arena) : GTs → Bool
  | .nil => true
  | .cons t ts => allIgnT arena t && allIgnF arena ts
end

mutual
def heredT (arena : Arena) : GT → Bool
  | .mk b kids =>
    if (aget arena b).ignore then allIgnT arena (.mk b kids) else heredF arena kids
def heredF (arena : Arena) : GTs → Bool
  | .nil => true
  | .cons t ts => heredT arena t && heredF arena ts
end

/-- Well-shaped live-depth sequences of a hereditary forest whose roots sit at
depth `d`: the first live node (if any) is at depth `d` exactly, and pre-order
depth never jumps by more than one. -/
def GoodD (d : Nat) (ds : List Nat) : Prop :=
  (∀ x ∈ ds, d ≤ x) ∧ (ds.head? = none ∨ ds.head? = some d) ∧
    List.Chain' (fun a b => b ≤ a + 1) ds

/-- Balance scan of a tokenizer event stream: the flag stays true while no
prefix closes more elements than it opened (a conformant tokenizer never
delivers such a stream), the counter tracks the nesting depth. -/
def balStep (p : Bool × Nat) (e : XEvent) : Bool × Nat :=
  match e with
  | .start _ _ => (p.1, p.2 + 1)
  | .endE => (p.1 && decide (0 < p.2), p.2 - 1)
  | .text _ => p

def balancedPrefixes (es : List XEvent) : Bool := (es.foldl balStep (true, 0)).1

def nStarts (es : List XEvent) : Nat :=
  es.countP (fun e => match e with | .start _ _ => true | _ => false)

def nEnds (es : List XEvent) : Nat :=
  es.countP (fun e => match e with | .endE => true | _ => false)

/-- The state the import loop threads through imports (arena and the root's
accumulated children), ignoring errors. -/
def loopState (g : GraftFn) (flags : Flags) (locales : List String)
    (imps : List Import) (st : Arena × List GT) : Arena × List GT :=
  imps.foldl (fun st imp =>
    let r := xb_builder_compile_import g flags locales imp st.1 st.2
    (r.1, r.2.1)) st

/-- Every import of the list parses without error when threaded in order. -/
def noErrors (g : GraftFn) (flags : Flags) (locales : List String) :
    List Import → Arena → List GT → Bool
  | [], _, _ => true
  | imp :: imps, arena, kids =>
    let r := xb_builder_compile_import g flags locales imp arena kids
    match r.2.2 with
    | some _ => false
    | none => noErrors g flags locales imps r.1 r.2.1

/-- Interning a list of strings from the empty table. -/
def internAll (ss : List String) : Strtab :=
  ss.foldl (fun st s => (xb_builder_compile_add_to_strtab st s).1) {}

/-- The string-table invariant: every recorded offset points at its recorded
string, NUL-terminated, and recorded strings are pairwise distinct. -/
def StrtabInv (st : Strtab) : Prop :=
  (∀ p ∈ st.tbl, noNul p.1 = true ∧
    ∃ rest, st.buf.drop p.2 = p.1.toList ++ nulChar :: rest) ∧
  (st.tbl.map Prod.fst).Nodup

/-- The liveness-and-size view of a builder node, unchanged by the interning
passes. -/
def projIE (bn : BN) : Bool × Nat := (bn.ignore, emitBytesOf bn)

/-- Follows the spec's words for claim C1, not the code: the offset recorded
for the first live node among a list of following siblings, `0` when no live
sibling follows. -/
def specNextLiveOffset (arena : Arena) : List GT → Nat
  | [] => 0
  | .mk b _ :: rest =>
    if (aget arena b).ignore then specNextLiveOffset arena rest
    else (aget arena b).offset

instance : Inhabited EmitSt := ⟨{ arena := [], chunks := [], level := 0 }⟩

instance : Inhabited CompileTrace :=
  ⟨{ arenaP := [], kids := [], items := [], nodetabsz := 0, arenaB := [],
     strtab := {}, ntags := 0, hdr := {}, emitSt := default, chunks := [] }⟩

/-- The trace of a successful compile (junk on a failed one); lets closed
statements name the trace of a concrete compile. -/
def traceOf (flags : Flags) (locales : List String) (b : Builder) : CompileTrace :=
  match compileTrace graftRef flags locales b with
  | .ok t => t
  | .error _ => default

/-- The trace of the spec-described pipeline that grafts info trees by deep
copy instead of by reference. -/
def traceOfDC (flags : Flags) (locales : List String) (b : Builder) : CompileTrace :=
  match compileTrace graftDeepCopy flags locales b with
  | .ok t => t
  | .error _ => default

/-! ### Concrete fixtures for witnesses and counterexamples -/

/-- One-import builder for `<r><a/><b xml:lang="fr"/><c/></r>`. -/
def demoCex1 : Builder :=
  xb_builder_add_import {}
    { ident := "d1"
      events := [.start "r" [], .start "a" [], .endE,
                 .start "b" [("xml:lang", "fr")], .endE, .start "c" [], .endE, .endE] }

/-- One-import builder for `<a xml:lang="fr"/>` carrying an info tree. -/
def demoCex2 : Builder :=
  xb_builder_add_import { arena := [{ element := "i" }] }
    { ident := "d2", events := [.start "a" [("xml:lang", "fr")], .endE], info := some 0 }

/-- Two imports sharing one info builder node. -/
def demoCex3 : Builder :=
  xb_builder_add_import
    (xb_builder_add_import { arena := [{ element := "i" }] }
      { ident := "i1", events := [.start "a" [], .endE], info := some 0 })
    { ident := "i2", events := [.start "b" [], .endE], info := some 0 }

def demoLocales : List String := ["en", "C"]

/-- The spec's S1 fixture: one import `<a><b>hello</b></a>`. -/
def demoS1 : Builder :=
  xb_builder_add_import {}
    { ident := "s1"
      events := [.start "a" [], .start "b" [], .text "hello", .endE, .endE] }

/-- Builders registering identities `u` then `v`, and swapped. -/
def demoUV : Builder :=
  xb_builder_add_import (xb_builder_add_import {} { ident := "u" }) { ident := "v" }

def demoVU : Builder :=
  xb_builder_add_import (xb_builder_add_import {} { ident := "v" }) { ident := "u" }

/-! ### Basic arena lemmas -/

theorem aset_oob : ∀ (a : Arena) (i : Nat) (x : BN), a.length ≤ i → aset a i x = a
  | [], _, _, _ => rfl
  | y :: rest, i+1, x, h => by
    rw [aset, aset_oob rest i x (by simpa using h)]
  | _ :: _, 0, _, h => by simp at h

theorem aset_length : ∀ (a : Arena) (i : Nat) (x : BN), (aset a i x).length = a.length
  | [], _, _ => rfl
  | _ :: _, 0, _ => rfl
  | _ :: rest, i+1, x => by simp [aset, aset_length rest i x]

theorem aget_aset_self : ∀ (a : Arena) (i : Nat) (x : BN), i < a.length →
    aget (aset a i x) i = x
  | _ :: _, 0, _, _ => rfl
  | _ :: rest, i+1, x, h => aget_aset_self rest i x (by simpa using h)

theorem aget_aset_ne : ∀ (a : Arena) (i j : Nat) (x : BN), i ≠ j →
    aget (aset a i x) j = aget a j
  | [], _, _, _, _ => rfl
  | _ :: _, 0, 0, _, h => absurd rfl h
  | _ :: _, 0, _+1, _, _ => rfl
  | _ :: _, _+1, 0, _, _ => rfl
  | _ :: rest, i+1, j+1, x, h => aget_aset_ne rest i j x (fun e => h (by rw [e]))

theorem aget_aset_proj {α} (p : BN → α) (a : Arena) (i j : Nat) (x : BN)
    (hx : p x = p (aget a i)) : p (aget (aset a i x) j) = p (aget a j) := by
  by_cases hij : i = j
  · subst hij
    by_cases hlt : i < a.length
    · rw [aget_aset_self a i x hlt, hx]
    · rw [aset_oob a i x (by omega)]
  · rw [aget_aset_ne a i j x hij]

theorem aget_oob : ∀ (a : Arena) (i : Nat), a.length ≤ i → aget a i = default
  | [], _, _ => rfl
  | _ :: rest, i+1, h => aget_oob rest i (by simpa using h)
  | _ :: _, 0, h => by simp at h

theorem aget_append_left : ∀ (a ext : Arena) (i : Nat), i < a.length →
    aget (a ++ ext) i = aget a i
  | [], _, _, h => by simp at h
  | _ :: _, _, 0, _ => rfl
  | _ :: rest, ext, i+1, h => aget_append_left rest ext i (by simpa using h)

theorem aget_append_len : ∀ (a : Arena) (x : BN), aget (a ++ [x]) a.length = x
  | [], _ => rfl
  | _ :: rest, x => aget_append_len rest x

/-! ### Buffer lemmas -/

theorem blen_nil : blen [] = 0 := rfl

theorem blen_cons (c : Chunk) (cs : List Chunk) : blen (c :: cs) = chunkSize c + blen cs := by
  simp [blen]

theorem blen_append (a b : List Chunk) : blen (a ++ b) = blen a + blen b := by
  simp [blen]

theorem chunkSize_pos (c : Chunk) : 0 < chunkSize c := by
  cases c <;> simp [chunkSize, sizeofXbSiloHeader, sizeofXbSiloNode, sizeofXbSiloAttr,
    sizeofGuint32]
  split <;> omega

theorem chunkAt_append_left : ∀ (cs ds : List Chunk) (off : Nat) (c : Chunk),
    chunkAt cs off = some c → chunkAt (cs ++ ds) off = some c := by
  intro cs
  induction cs with
  | nil => intro ds off c h; simp [chunkAt] at h
  | cons c0 cs ih =>
    intro ds off c h
    by_cases h0 : off = 0
    · subst h0
      rw [chunkAt, if_pos rfl] at h
      rw [List.cons_append, chunkAt, if_pos rfl]
      exact h
    · by_cases hlt : off < chunkSize c0
      · rw [chunkAt, if_neg h0, if_pos hlt] at h
        exact absurd h (by simp)
      · rw [chunkAt, if_neg h0, if_neg hlt] at h
        rw [List.cons_append, chunkAt, if_neg h0, if_neg hlt]
        exact ih ds _ c h

theorem chunkAt_append_blen : ∀ (cs ds : List Chunk) (off : Nat),
    chunkAt (cs ++ ds) (blen cs + off) = chunkAt ds off := by
  intro cs
  induction cs with
  | nil => intro ds off; simp [blen]
  | cons c0 cs ih =>
    intro ds off
    rw [List.cons_append, chunkAt, blen_cons]
    have hpos := chunkSize_pos c0
    rw [if_neg (by omega), if_neg (by omega)]
    have : chunkSize c0 + blen cs + off - chunkSize c0 = blen cs + off := by omega
    rw [this]
    exact ih ds off

theorem chunkAt_append_blen0 (cs ds : List Chunk) :
    chunkAt (cs ++ ds) (blen cs) = chunkAt ds 0 := by
  have h := chunkAt_append_blen cs ds 0
  simpa using h

theorem fixChunk_size (f : SiloNodeRec → SiloNodeRec)
    (hf : ∀ r, chunkSize (Chunk.nodeC (f r)) = chunkSize (Chunk.nodeC r)) (c : Chunk) :
    chunkSize (fixChunk f c) = chunkSize c := by
  cases c
  · rfl
  · exact hf _
  · rfl
  · rfl

theorem fixAt_blen (f : SiloNodeRec → SiloNodeRec)
    (hf : ∀ r, chunkSize (Chunk.nodeC (f r)) = chunkSize (Chunk.nodeC r)) :
    ∀ (cs : List Chunk) (off : Nat), blen (fixAt cs off f) = blen cs := by
  intro cs
  induction cs with
  | nil => intro off; rfl
  | cons c0 cs ih =>
    intro off
    by_cases h0 : off = 0
    · rw [fixAt, if_pos h0, blen_cons, blen_cons, fixChunk_size f hf]
    · by_cases hlt : off < chunkSize c0
      · rw [fixAt, if_neg h0, if_pos hlt]
      · rw [fixAt, if_neg h0, if_neg hlt, blen_cons, blen_cons, ih]

theorem chunkAt_fixAt_self (f : SiloNodeRec → SiloNodeRec) :
    ∀ (cs : List Chunk) (off : Nat) (r : SiloNodeRec),
    chunkAt cs off = some (Chunk.nodeC r) →
    chunkAt (fixAt cs off f) off = some (Chunk.nodeC (f r)) := by
  intro cs
  induction cs with
  | nil => intro off r h; simp [chunkAt] at h
  | cons c0 cs ih =>
    intro off r h
    by_cases h0 : off = 0
    · subst h0
      rw [chunkAt, if_pos rfl] at h
      have : c0 = Chunk.nodeC r := by simpa using h
      subst this
      rw [fixAt, if_pos rfl, chunkAt, if_pos rfl]
      rfl
    · by_cases hlt : off < chunkSize c0
      · rw [chunkAt, if_neg h0, if_pos hlt] at h
        exact absurd h (by simp)
      · rw [chunkAt, if_neg h0, if_neg hlt] at h
        rw [fixAt, if_neg h0, if_neg hlt, chunkAt, if_neg h0, if_neg hlt]
        exact ih _ r h

theorem chunkAt_fixAt_ne (f : SiloNodeRec → SiloNodeRec)
    (hf : ∀ r, chunkSize (Chunk.nodeC (f r)) = chunkSize (Chunk.nodeC r)) :
    ∀ (cs : List Chunk) (off off2 : Nat), off2 ≠ off →
    chunkAt (fixAt cs off f) off2 = chunkAt cs off2 := by
  intro cs
  induction cs with
  | nil => intro off off2 _; rfl
  | cons c0 cs ih =>
    intro off off2 hne
    by_cases h0 : off = 0
    · subst h0
      rw [fixAt, if_pos rfl, chunkAt, chunkAt, if_neg hne, if_neg hne,
        fixChunk_size f hf]
    · by_cases hlt : off < chunkSize c0
      · rw [fixAt, if_neg h0, if_pos hlt]
      · rw [fixAt, if_neg h0, if_neg hlt, chunkAt, chunkAt]
        by_cases h20 : off2 = 0
        · rw [if_pos h20, if_pos h20]
        · rw [if_neg h20, if_neg h20]
          by_cases h2lt : off2 < chunkSize c0
          · rw [if_pos h2lt, if_pos h2lt]
          · rw [if_neg h2lt, if_neg h2lt]
            exact ih _ _ (by omega)

theorem fixAt_head_keep (h0 : Header) (tl : List Chunk) (off : Nat)
    (f : SiloNodeRec → SiloNodeRec) :
    ∃ tl2, fixAt (Chunk.headerC h0 :: tl) off f = Chunk.headerC h0 :: tl2 := by
  by_cases he : off = 0
  · exact ⟨tl, by rw [fixAt, if_pos he]; rfl⟩
  · by_cases hlt : off < chunkSize (Chunk.headerC h0)
    · exact ⟨tl, by rw [fixAt, if_neg he, if_pos hlt]⟩
    · exact ⟨_, by rw [fixAt, if_neg he, if_neg hlt]⟩

/-! ### Write-pass lemmas -/

theorem wcb_ignored (st : EmitSt) (it : Item)
    (h : (aget st.arena it.bid).ignore = true) :
    xb_builder_nodetab_write_cb st it = st := by
  simp [xb_builder_nodetab_write_cb, h]

theorem wcb_live (st : EmitSt) (it : Item)
    (h : (aget st.arena it.bid).ignore = false) :
    xb_builder_nodetab_write_cb st it =
      { arena := aset st.arena it.bid
          { aget st.arena it.bid with
            offset := blen (st.chunks ++ List.replicate
              (if it.depth ≤ st.level then st.level - it.depth + 1 else 0)
              Chunk.sentinelC) }
        chunks := st.chunks ++ List.replicate
              (if it.depth ≤ st.level then st.level - it.depth + 1 else 0)
              Chunk.sentinelC
          ++ [Chunk.nodeC (siloNodeOf (aget st.arena it.bid))]
          ++ (aget st.arena it.bid).attrs.map (fun a => Chunk.attrC a.nameIdx a.valueIdx)
        level := it.depth } := by
  simp [xb_builder_nodetab_write_cb, h]

theorem wcb_arena_proj {α} (p : BN → α)
    (hp : ∀ bn off, p { bn with offset := off } = p bn)
    (st : EmitSt) (it : Item) (i : Nat) :
    p (aget (xb_builder_nodetab_write_cb st it).arena i) = p (aget st.arena i) := by
  by_cases h : (aget st.arena it.bid).ignore = true
  · rw [wcb_ignored st it h]
  · rw [wcb_live st it (by simpa using h)]
    exact aget_aset_proj p _ _ _ _ (hp _ _)

theorem emit_arena_proj {α} (p : BN → α)
    (hp : ∀ bn off, p { bn with offset := off } = p bn) :
    ∀ (items : List Item) (st : EmitSt) (i : Nat),
    p (aget (items.foldl xb_builder_nodetab_write_cb st).arena i) = p (aget st.arena i) := by
  intro items
  induction items with
  | nil => intro st i; rfl
  | cons it0 rest ih =>
    intro st i
    rw [List.foldl_cons, ih, wcb_arena_proj p hp]

theorem wcb_length (st : EmitSt) (it : Item) :
    (xb_builder_nodetab_write_cb st it).arena.length = st.arena.length := by
  by_cases h : (aget st.arena it.bid).ignore = true
  · rw [wcb_ignored st it h]
  · rw [wcb_live st it (by simpa using h)]
    exact aset_length _ _ _

theorem emit_length : ∀ (items : List Item) (st : EmitSt),
    (items.foldl xb_builder_nodetab_write_cb st).arena.length = st.arena.length := by
  intro items
  induction items with
  | nil => intro st; rfl
  | cons it0 rest ih =>
    intro st
    rw [List.foldl_cons, ih, wcb_length]

theorem wcb_chunks_ext (st : EmitSt) (it : Item) :
    ∃ d, (xb_builder_nodetab_write_cb st it).chunks = st.chunks ++ d := by
  by_cases h : (aget st.arena it.bid).ignore = true
  · exact ⟨[], by rw [wcb_ignored st it h]; simp⟩
  · exact ⟨List.replicate (if it.depth ≤ st.level then st.level - it.depth + 1 else 0)
        Chunk.sentinelC
      ++ [Chunk.nodeC (siloNodeOf (aget st.arena it.bid))]
      ++ (aget st.arena it.bid).attrs.map (fun a => Chunk.attrC a.nameIdx a.valueIdx),
      by rw [wcb_live st it (by simpa using h)]; simp⟩

theorem emit_chunks_ext : ∀ (items : List Item) (st : EmitSt),
    ∃ d, (items.foldl xb_builder_nodetab_write_cb st).chunks = st.chunks ++ d := by
  intro items
  induction items with
  | nil => intro st; exact ⟨[], by simp⟩
  | cons it0 rest ih =>
    intro st
    rw [List.foldl_cons]
    obtain ⟨d1, h1⟩ := wcb_chunks_ext st it0
    obtain ⟨d2, h2⟩ := ih (xb_builder_nodetab_write_cb st it0)
    exact ⟨d1 ++ d2, by rw [h2, h1, List.append_assoc]⟩

theorem emit_blen_mono (items : List Item) (st : EmitSt) :
    blen st.chunks ≤ blen (items.foldl xb_builder_nodetab_write_cb st).chunks := by
  obtain ⟨d, hd⟩ := emit_chunks_ext items st
  rw [hd, blen_append]
  omega

theorem emit_offset_stable : ∀ (items : List Item) (st : EmitSt) (b : Nat),
    (∀ it ∈ items, it.bid = b → (aget st.arena it.bid).ignore = true) →
    (aget (items.foldl xb_builder_nodetab_write_cb st).arena b).offset
      = (aget st.arena b).offset := by
  intro items
  induction items with
  | nil => intro st b _; rfl
  | cons it0 rest ih =>
    intro st b hids
    rw [List.foldl_cons]
    have hstep : (aget (xb_builder_nodetab_write_cb st it0).arena b).offset
        = (aget st.arena b).offset := by
      by_cases h : (aget st.arena it0.bid).ignore = true
      · rw [wcb_ignored st it0 h]
      · rw [wcb_live st it0 (by simpa using h)]
        have hbne : it0.bid ≠ b := by
          intro he
          exact h (hids it0 (by simp) he)
        rw [aget_aset_ne _ _ _ _ hbne]
    rw [← hstep]
    refine ih _ b ?_
    intro it hit he
    have := hids it (by simp [hit]) he
    rw [wcb_arena_proj (fun bn => bn.ignore) (fun _ _ => rfl)]
    exact this

theorem filter_congr_local {α} (p q : α → Bool) :
    ∀ (l : List α), (∀ a ∈ l, p a = q a) → l.filter p = l.filter q := by
  intro l
  induction l with
  | nil => intro _; rfl
  | cons a l ih =>
    intro h
    rw [List.filter_cons, List.filter_cons, h a (by simp),
      ih (fun x hx => h x (by simp [hx]))]

/-- Main write-pass characterisation: after the pre-order write traversal,
each live node's recorded offset points at a freshly appended copy of its node
record, lies past the initial buffer, and distinct live nodes (distinct ids)
got distinct offsets. -/
theorem emit_main : ∀ (items : List Item) (st : EmitSt)
    (_ : ∀ it2 ∈ items, it2.bid < st.arena.length)
    (_ : ((items.filter (fun it2 => !(aget st.arena it2.bid).ignore)).map Item.bid).Nodup)
    (it : Item), it ∈ items → (aget st.arena it.bid).ignore = false →
    blen st.chunks ≤ (aget (items.foldl xb_builder_nodetab_write_cb st).arena it.bid).offset
    ∧ (aget (items.foldl xb_builder_nodetab_write_cb st).arena it.bid).offset
        < blen (items.foldl xb_builder_nodetab_write_cb st).chunks
    ∧ nodeRecAt (items.foldl xb_builder_nodetab_write_cb st).chunks
        ((aget (items.foldl xb_builder_nodetab_write_cb st).arena it.bid).offset)
        = some (siloNodeOf (aget st.arena it.bid))
    ∧ ∀ it2 ∈ items, (aget st.arena it2.bid).ignore = false → it2.bid ≠ it.bid →
        (aget (items.foldl xb_builder_nodetab_write_cb st).arena it2.bid).offset
          ≠ (aget (items.foldl xb_builder_nodetab_write_cb st).arena it.bid).offset := by
  intro items
  induction items with
  | nil => intro st _ _ it hit; exact absurd hit (by simp)
  | cons it0 rest ih =>
    intro st hbd hnd it hit hlive
    rw [List.foldl_cons] at *
    have hignore1 : ∀ i, (aget (xb_builder_nodetab_write_cb st it0).arena i).ignore
        = (aget st.arena i).ignore :=
      fun i => wcb_arena_proj (fun bn => bn.ignore) (fun _ _ => rfl) st it0 i
    have hsilo1 : ∀ i, siloNodeOf (aget (xb_builder_nodetab_write_cb st it0).arena i)
        = siloNodeOf (aget st.arena i) :=
      fun i => wcb_arena_proj siloNodeOf (fun _ _ => rfl) st it0 i
    have hbd1 : ∀ it2 ∈ rest, it2.bid < (xb_builder_nodetab_write_cb st it0).arena.length := by
      intro it2 h2
      rw [wcb_length]
      exact hbd it2 (by simp [h2])
    by_cases hig0 : (aget st.arena it0.bid).ignore = true
    · -- the head item is ignored: the step is the identity
      have hstep : xb_builder_nodetab_write_cb st it0 = st := wcb_ignored st it0 hig0
      rw [hstep]
      have hnd' : ((rest.filter (fun it2 => !(aget st.arena it2.bid).ignore)).map
          Item.bid).Nodup := by
        rw [List.filter_cons] at hnd
        simpa [hig0] using hnd
      rcases List.mem_cons.mp hit with he | hr
      · rw [he] at hlive; rw [hlive] at hig0; exact absurd hig0 (by simp)
      · obtain ⟨c1, c2, c3, c4⟩ := ih st (fun it2 h2 => hbd it2 (by simp [h2])) hnd' it hr hlive
        refine ⟨c1, c2, c3, ?_⟩
        intro it2 hit2 hl2 hne
        rcases List.mem_cons.mp hit2 with he2 | hr2
        · rw [he2] at hl2; rw [hl2] at hig0; exact absurd hig0 (by simp)
        · exact c4 it2 hr2 hl2 hne
    · -- the head item is live and gets written at off0
      have hl0 : (aget st.arena it0.bid).ignore = false := by simpa using hig0
      have hlt0 : it0.bid < st.arena.length := hbd it0 (by simp)
      have hchunks1 : (xb_builder_nodetab_write_cb st it0).chunks
          = (st.chunks ++ List.replicate
              (if it0.depth ≤ st.level then st.level - it0.depth + 1 else 0)
              Chunk.sentinelC)
            ++ ([Chunk.nodeC (siloNodeOf (aget st.arena it0.bid))]
              ++ (aget st.arena it0.bid).attrs.map
                (fun a => Chunk.attrC a.nameIdx a.valueIdx)) := by
        rw [wcb_live st it0 hl0]
        simp
      have harena1 : (xb_builder_nodetab_write_cb st it0).arena
          = aset st.arena it0.bid
            { aget st.arena it0.bid with
              offset := blen (st.chunks ++ List.replicate
                (if it0.depth ≤ st.level then st.level - it0.depth + 1 else 0)
                Chunk.sentinelC) } := by
        rw [wcb_live st it0 hl0]
      -- the filtered list decomposes as it0 :: rest-filtered
      have hfc : (it0 :: rest).filter (fun it2 => !(aget st.arena it2.bid).ignore)
          = it0 :: rest.filter (fun it2 => !(aget st.arena it2.bid).ignore) := by
        rw [List.filter_cons]
        simp [hl0]
      rw [hfc] at hnd
      have hnotin : it0.bid ∉ (rest.filter
          (fun it2 => !(aget st.arena it2.bid).ignore)).map Item.bid :=
        (List.nodup_cons.mp (by simpa using hnd)).1
      have hndrest : ((rest.filter (fun it2 => !(aget st.arena it2.bid).ignore)).map
          Item.bid).Nodup := (List.nodup_cons.mp (by simpa using hnd)).2
      have hnd1 : ((rest.filter (fun it2 =>
          !(aget (xb_builder_nodetab_write_cb st it0).arena it2.bid).ignore)).map
          Item.bid).Nodup := by
        rw [filter_congr_local _ (fun it2 => !(aget st.arena it2.bid).ignore) rest
          (fun a _ => by rw [hignore1])]
        exact hndrest
      -- no rest item shares it0's id while live
      have hrestid : ∀ it2 ∈ rest, it2.bid = it0.bid →
          (aget st.arena it2.bid).ignore = true := by
        intro it2 h2 he
        by_contra hcon
        have hl2 : (aget st.arena it2.bid).ignore = false := by
          cases h : (aget st.arena it2.bid).ignore
          · rfl
          · exact absurd h hcon
        exact hnotin (by
          rw [← he]
          exact List.mem_map.mpr ⟨it2, List.mem_filter.mpr ⟨h2, by simp [hl2]⟩, rfl⟩)
      -- it0's final offset is off0
      have hoff1 : (aget (xb_builder_nodetab_write_cb st it0).arena it0.bid).offset
          = blen (st.chunks ++ List.replicate
              (if it0.depth ≤ st.level then st.level - it0.depth + 1 else 0)
              Chunk.sentinelC) := by
        rw [harena1, aget_aset_self _ _ _ hlt0]
      have hofffin : (aget (rest.foldl xb_builder_nodetab_write_cb
          (xb_builder_nodetab_write_cb st it0)).arena it0.bid).offset
          = blen (st.chunks ++ List.replicate
              (if it0.depth ≤ st.level then st.level - it0.depth + 1 else 0)
              Chunk.sentinelC) := by
        rw [emit_offset_stable rest _ it0.bid, hoff1]
        intro it2 h2 he
        rw [hignore1]
        exact hrestid it2 h2 he
      have hblen1 : blen (xb_builder_nodetab_write_cb st it0).chunks
          = blen (st.chunks ++ List.replicate
              (if it0.depth ≤ st.level then st.level - it0.depth + 1 else 0)
              Chunk.sentinelC)
            + (chunkSize (Chunk.nodeC (siloNodeOf (aget st.arena it0.bid)))
              + blen ((aget st.arena it0.bid).attrs.map
                (fun a => Chunk.attrC a.nameIdx a.valueIdx))) := by
        rw [hchunks1, blen_append, blen_append, List.singleton_append, blen_cons]
      have hnodesz := chunkSize_pos (Chunk.nodeC (siloNodeOf (aget st.arena it0.bid)))
      have hmono := emit_blen_mono rest (xb_builder_nodetab_write_cb st it0)
      rcases List.mem_cons.mp hit with he | hr
      · -- the target is it0 itself
        subst he
        refine ⟨?_, ?_, ?_, ?_⟩
        · rw [hofffin, blen_append]; omega
        · rw [hofffin]; omega
        · obtain ⟨d, hd⟩ := emit_chunks_ext rest (xb_builder_nodetab_write_cb st it)
          have hca : chunkAt (rest.foldl xb_builder_nodetab_write_cb
              (xb_builder_nodetab_write_cb st it)).chunks
              (blen (st.chunks ++ List.replicate
                (if it.depth ≤ st.level then st.level - it.depth + 1 else 0)
                Chunk.sentinelC))
              = some (Chunk.nodeC (siloNodeOf (aget st.arena it.bid))) := by
            rw [hd, hchunks1, List.append_assoc, chunkAt_append_blen0,
              List.append_assoc, List.singleton_append, chunkAt, if_pos rfl]
          rw [hofffin]
          simp [nodeRecAt, hca]
        · intro it2 hit2 hl2 hne
          rcases List.mem_cons.mp hit2 with he2 | hr2
          · exact absurd (by rw [he2]) hne
          · obtain ⟨c1, _, _, _⟩ := ih (xb_builder_nodetab_write_cb st it) hbd1 hnd1 it2 hr2
              (by rw [hignore1]; exact hl2)
            rw [hofffin]
            omega
      · -- the target sits in the tail
        obtain ⟨c1, c2, c3, c4⟩ := ih (xb_builder_nodetab_write_cb st it0) hbd1 hnd1 it hr
          (by rw [hignore1]; exact hlive)
        refine ⟨?_, c2, ?_, ?_⟩
        · have hst : blen st.chunks ≤ blen (xb_builder_nodetab_write_cb st it0).chunks := by
            rw [hblen1, blen_append]
            omega
          omega
        · rw [hsilo1] at c3
          exact c3
        · intro it2 hit2 hl2 hne
          rcases List.mem_cons.mp hit2 with he2 | hr2
          · rw [he2, hofffin]
            omega
          · exact c4 it2 hr2 (by rw [hignore1]; exact hl2) hne

/-! ### Fixup-pass lemmas -/

theorem fixRec_size (arena : Arena) (it : Item) (r : SiloNodeRec) :
    chunkSize (Chunk.nodeC (fixRec arena it r)) = chunkSize (Chunk.nodeC r) := by
  unfold fixRec
  cases it.parentBid <;> cases it.nextBid <;> rfl

theorem fcb_blen (arena : Arena) (cs : List Chunk) (it : Item) :
    blen (xb_builder_nodetab_fix_cb arena cs it) = blen cs := by
  unfold xb_builder_nodetab_fix_cb
  by_cases h : (aget arena it.bid).ignore = true
  · simp [h]
  · simp only [h]
    rw [if_neg (by simp [h])]
    exact fixAt_blen _ (fixRec_size arena it) cs _

theorem fix_blen (arena : Arena) : ∀ (items : List Item) (cs : List Chunk),
    blen (items.foldl (xb_builder_nodetab_fix_cb arena) cs) = blen cs := by
  intro items
  induction items with
  | nil => intro cs; rfl
  | cons it0 rest ih =>
    intro cs
    rw [List.foldl_cons, ih, fcb_blen]

theorem fcb_other (arena : Arena) (cs : List Chunk) (it : Item) (o : Nat)
    (h : (aget arena it.bid).ignore = false → (aget arena it.bid).offset ≠ o) :
    chunkAt (xb_builder_nodetab_fix_cb arena cs it) o = chunkAt cs o := by
  unfold xb_builder_nodetab_fix_cb
  by_cases hig : (aget arena it.bid).ignore = true
  · simp [hig]
  · have hl : (aget arena it.bid).ignore = false := by simpa using hig
    rw [if_neg (by simp [hl])]
    exact chunkAt_fixAt_ne _ (fixRec_size arena it) cs _ o (fun he => h hl he.symm)

theorem fix_chunkAt_other (arena : Arena) : ∀ (items : List Item) (cs : List Chunk) (o : Nat),
    (∀ it ∈ items, (aget arena it.bid).ignore = false → (aget arena it.bid).offset ≠ o) →
    chunkAt (items.foldl (xb_builder_nodetab_fix_cb arena) cs) o = chunkAt cs o := by
  intro items
  induction items with
  | nil => intro cs o _; rfl
  | cons it0 rest ih =>
    intro cs o ho
    rw [List.foldl_cons, ih _ o (fun it2 h2 => ho it2 (by simp [h2])),
      fcb_other arena cs it0 o (ho it0 (by simp))]

theorem fix_head_keep (arena : Arena) (h0 : Header) :
    ∀ (items : List Item) (tl : List Chunk),
    ∃ tl2, items.foldl (xb_builder_nodetab_fix_cb arena) (Chunk.headerC h0 :: tl)
      = Chunk.headerC h0 :: tl2 := by
  intro items
  induction items with
  | nil => intro tl; exact ⟨tl, rfl⟩
  | cons it0 rest ih =>
    intro tl
    rw [List.foldl_cons]
    unfold xb_builder_nodetab_fix_cb
    by_cases hig : (aget arena it0.bid).ignore = true
    · rw [if_pos hig]
      exact ih tl
    · rw [if_neg hig]
      obtain ⟨tl2, h2⟩ := fixAt_head_keep h0 tl (aget arena it0.bid).offset
        (fixRec arena it0)
      rw [h2]
      exact ih tl2

/-- Main fixup-pass characterisation: each live node's record, found at its
recorded offset, ends up with exactly the parent/next assignment of its own
fixup visit. -/
theorem fix_main : ∀ (items : List Item) (arena : Arena) (cs : List Chunk)
    (R : Nat → SiloNodeRec)
    (_ : ∀ it2 ∈ items, (aget arena it2.bid).ignore = false →
      nodeRecAt cs ((aget arena it2.bid).offset) = some (R it2.bid))
    (_ : ∀ it1 ∈ items, ∀ it2 ∈ items, (aget arena it1.bid).ignore = false →
      (aget arena it2.bid).ignore = false → it2.bid ≠ it1.bid →
      (aget arena it2.bid).offset ≠ (aget arena it1.bid).offset)
    (_ : ((items.filter (fun it2 => !(aget arena it2.bid).ignore)).map Item.bid).Nodup)
    (it : Item), it ∈ items → (aget arena it.bid).ignore = false →
    nodeRecAt (items.foldl (xb_builder_nodetab_fix_cb arena) cs)
      ((aget arena it.bid).offset) = some (fixRec arena it (R it.bid)) := by
  intro items
  induction items with
  | nil => intro arena cs R _ _ _ it hit; exact absurd hit (by simp)
  | cons it0 rest ih =>
    intro arena cs R hrec hdist hnd it hit hlive
    rw [List.foldl_cons]
    by_cases hig0 : (aget arena it0.bid).ignore = true
    · -- head is ignored: the step is the identity
      have hstep : xb_builder_nodetab_fix_cb arena cs it0 = cs := by
        unfold xb_builder_nodetab_fix_cb
        rw [if_pos hig0]
      rw [hstep]
      rcases List.mem_cons.mp hit with he | hr
      · rw [he] at hlive; rw [hlive] at hig0; exact absurd hig0 (by simp)
      · refine ih arena cs R (fun it2 h2 => hrec it2 (by simp [h2]))
          (fun it1 h1 it2 h2 => hdist it1 (by simp [h1]) it2 (by simp [h2])) ?_ it hr hlive
        rw [List.filter_cons] at hnd
        simpa [hig0] using hnd
    · have hl0 : (aget arena it0.bid).ignore = false := by simpa using hig0
      have hstep : xb_builder_nodetab_fix_cb arena cs it0
          = fixAt cs (aget arena it0.bid).offset (fixRec arena it0) := by
        unfold xb_builder_nodetab_fix_cb
        rw [if_neg hig0]
      rw [hstep]
      have hfc : (it0 :: rest).filter (fun it2 => !(aget arena it2.bid).ignore)
          = it0 :: rest.filter (fun it2 => !(aget arena it2.bid).ignore) := by
        rw [List.filter_cons]
        simp [hl0]
      rw [hfc, List.map_cons] at hnd
      have hnotin : it0.bid ∉ (rest.filter
          (fun it2 => !(aget arena it2.bid).ignore)).map Item.bid :=
        (List.nodup_cons.mp hnd).1
      have hndrest := (List.nodup_cons.mp hnd).2
      have hrestne : ∀ it2 ∈ rest, (aget arena it2.bid).ignore = false →
          it2.bid ≠ it0.bid := by
        intro it2 h2 hl2 he
        exact hnotin (by
          rw [← he]
          exact List.mem_map.mpr ⟨it2, List.mem_filter.mpr ⟨h2, by simp [hl2]⟩, rfl⟩)
      have hrestoff : ∀ it2 ∈ rest, (aget arena it2.bid).ignore = false →
          (aget arena it2.bid).offset ≠ (aget arena it0.bid).offset := by
        intro it2 h2 hl2
        exact hdist it0 (by simp) it2 (by simp [h2]) hl0 hl2 (hrestne it2 h2 hl2)
      have hrec1 : ∀ it2 ∈ rest, (aget arena it2.bid).ignore = false →
          nodeRecAt (fixAt cs (aget arena it0.bid).offset (fixRec arena it0))
            ((aget arena it2.bid).offset) = some (R it2.bid) := by
        intro it2 h2 hl2
        rw [nodeRecAt, chunkAt_fixAt_ne _ (fixRec_size arena it0) cs _ _
          (hrestoff it2 h2 hl2)]
        have := hrec it2 (by simp [h2]) hl2
        rw [nodeRecAt] at this
        exact this
      rcases List.mem_cons.mp hit with he | hr
      · -- the target is the head: it got fixed now, later fixes are elsewhere
        subst he
        have hca : chunkAt cs ((aget arena it.bid).offset)
            = some (Chunk.nodeC (R it.bid)) := by
          have := hrec it (by simp) hlive
          rw [nodeRecAt] at this
          cases hc : chunkAt cs (aget arena it.bid).offset with
          | none => rw [hc] at this; simp at this
          | some c =>
            rw [hc] at this
            cases c with
            | nodeC r => simp at this; rw [this]
            | headerC hh => simp at this
            | attrC n v => simp at this
            | sentinelC => simp at this
        have hfixed := chunkAt_fixAt_self (fixRec arena it) cs _ _ hca
        rw [nodeRecAt, fix_chunkAt_other arena rest _ _ hrestoff, hfixed]
      · -- the target is in the tail
        exact ih arena _ R hrec1
          (fun it1 h1 it2 h2 => hdist it1 (by simp [h1]) it2 (by simp [h2]))
          (by
            rw [filter_congr_local _ (fun it2 => !(aget arena it2.bid).ignore) rest
              (fun a _ => rfl)]
            exact hndrest) it hr hlive

/-! ### Glue lemmas for the assembled pipeline -/

theorem emitTrailing_arena (st : EmitSt) : (emitTrailing st).arena = st.arena := by
  unfold emitTrailing
  split <;> rfl

theorem emitTrailing_chunks_ext (st : EmitSt) :
    ∃ d, (emitTrailing st).chunks = st.chunks ++ d := by
  unfold emitTrailing
  split
  · exact ⟨_, rfl⟩
  · exact ⟨[], by simp⟩

theorem nodeRecAt_some_iff (cs : List Chunk) (off : Nat) (r : SiloNodeRec) :
    nodeRecAt cs off = some r ↔ chunkAt cs off = some (Chunk.nodeC r) := by
  unfold nodeRecAt
  cases hc : chunkAt cs off with
  | none => simp
  | some c =>
    cases c with
    | nodeC r2 => simp
    | headerC hh => simp
    | attrC n v => simp
    | sentinelC => simp

theorem nodeRecAt_append_left (cs ds : List Chunk) (off : Nat) (r : SiloNodeRec)
    (h : nodeRecAt cs off = some r) : nodeRecAt (cs ++ ds) off = some r := by
  rw [nodeRecAt_some_iff] at h ⊢
  exact chunkAt_append_left cs ds off _ h

theorem aget_mem : ∀ (a : Arena) (i : Nat), i < a.length → aget a i ∈ a
  | x :: _, 0, _ => by simp [aget]
  | _ :: rest, i+1, h => by
    simp only [aget]
    exact List.mem_cons_of_mem _ (aget_mem rest i (by simpa using h))

theorem arena_offsets_zero (a : Arena)
    (h : a.all (fun bn => bn.offset == 0) = true) (i : Nat) : (aget a i).offset = 0 := by
  by_cases hi : i < a.length
  · have := List.all_eq_true.mp h _ (aget_mem a i hi)
    simpa using this
  · rw [aget_oob a i (by omega)]
    rfl

theorem fixRec_fields (arena : Arena) (it : Item) (r : SiloNodeRec) :
    (fixRec arena it r).parent = (match it.parentBid with
      | some pb => (aget arena pb).offset
      | none => r.parent)
    ∧ (fixRec arena it r).next = (match it.nextBid with
      | some nb => (aget arena nb).offset
      | none => r.next)
    ∧ (fixRec arena it r).hasText = r.hasText
    ∧ (fixRec arena it r).nrAttrs = r.nrAttrs
    ∧ (fixRec arena it r).elementName = r.elementName
    ∧ (fixRec arena it r).text = r.text := by
  unfold fixRec
  cases it.parentBid <;> cases it.nextBid <;> simp

theorem compileTables_items (b : Builder) (arena : Arena) (kids : List GT) :
    (compileTables b arena kids).items = forestItems (compileTables b arena kids).kids := rfl

theorem compileTables_emitSt (b : Builder) (arena : Arena) (kids : List GT) :
    (compileTables b arena kids).emitSt
      = emitTrailing ((compileTables b arena kids).items.foldl xb_builder_nodetab_write_cb
        { arena := (compileTables b arena kids).arenaB
          chunks := [Chunk.headerC (compileTables b arena kids).hdr]
          level := 0 }) := rfl

theorem compileTables_chunks (b : Builder) (arena : Arena) (kids : List GT) :
    (compileTables b arena kids).chunks
      = (compileTables b arena kids).items.foldl
        (xb_builder_nodetab_fix_cb (compileTables b arena kids).emitSt.arena)
        (compileTables b arena kids).emitSt.chunks := rfl

theorem compileTables_hdr (b : Builder) (arena : Arena) (kids : List GT) :
    (compileTables b arena kids).hdr
      = { strtab := (compileTables b arena kids).nodetabsz
          strtabNtags := (compileTables b arena kids).ntags
          guid := headerGuidField b.guid } := rfl

theorem compileTables_nodetabsz (b : Builder) (arena : Arena) (kids : List GT) :
    (compileTables b arena kids).nodetabsz
      = (compileTables b arena kids).items.foldl
        (xb_builder_nodetab_size_cb (compileTables b arena kids).arenaP)
        sizeofXbSiloHeader := rfl

theorem compileTrace_ok (g : GraftFn) (flags : Flags) (locales : List String)
    (b : Builder) (t : CompileTrace)
    (h : compileTrace g flags locales b = .ok t) :
    ∃ a k, compileImportLoop g flags locales b.imports b.arena [] = .ok (a, k)
      ∧ t = compileTables b a k := by
  unfold compileTrace at h
  cases hl : compileImportLoop g flags locales b.imports b.arena [] with
  | error e => rw [hl] at h; exact absurd h (by simp)
  | ok r =>
    rw [hl] at h
    refine ⟨r.1, r.2, rfl, ?_⟩
    have := (by simpa using h : compileTables b r.1 r.2 = t)
    exact this.symm

/-- Combined characterisation of the write pass, the trailing sentinels and the
fixup pass, starting from an arena with cleared offset slots. -/
theorem passCD_main (items : List Item) (A : Arena) (hdr : Header)
    (E : EmitSt) (final : List Chunk)
    (hE : E = emitTrailing (items.foldl xb_builder_nodetab_write_cb
      { arena := A, chunks := [Chunk.headerC hdr], level := 0 }))
    (hfinal : final = items.foldl (xb_builder_nodetab_fix_cb E.arena) E.chunks)
    (hz : A.all (fun bn => bn.offset == 0) = true)
    (hnd : ((items.filter (fun it2 => !(aget A it2.bid).ignore)).map Item.bid).Nodup)
    (hbd : ∀ it2 ∈ items, it2.bid < A.length) :
    (∀ it ∈ items, (aget A it.bid).ignore = false →
      ∃ r, nodeRecAt final ((aget E.arena it.bid).offset) = some r
        ∧ r.parent = (match it.parentBid with
            | some pb => (aget E.arena pb).offset
            | none => 0)
        ∧ r.next = (match it.nextBid with
            | some nb => (aget E.arena nb).offset
            | none => 0)
        ∧ r.elementName = (aget A it.bid).elementIdx
        ∧ r.hasText = (aget A it.bid).text.isSome
        ∧ r.nrAttrs = (aget A it.bid).attrs.length)
    ∧ ∀ bb : Nat, (∀ it ∈ items, it.bid = bb → (aget A it.bid).ignore = true) →
        (aget E.arena bb).offset = 0 := by
  subst hE
  subst hfinal
  have hMa := emitTrailing_arena (items.foldl xb_builder_nodetab_write_cb
    { arena := A, chunks := [Chunk.headerC hdr], level := 0 })
  obtain ⟨dT, hdT⟩ := emitTrailing_chunks_ext (items.foldl xb_builder_nodetab_write_cb
    { arena := A, chunks := [Chunk.headerC hdr], level := 0 })
  have hig : ∀ i, (aget (items.foldl xb_builder_nodetab_write_cb
      { arena := A, chunks := [Chunk.headerC hdr], level := 0 }).arena i).ignore
      = (aget A i).ignore :=
    fun i => emit_arena_proj (fun bn => bn.ignore) (fun _ _ => rfl) items _ i
  rw [hMa, hdT]
  constructor
  · intro it hit hl
    have hmain := fun (it2 : Item) (hit2 : it2 ∈ items)
        (hl2 : (aget A it2.bid).ignore = false) =>
      emit_main items { arena := A, chunks := [Chunk.headerC hdr], level := 0 }
        hbd hnd it2 hit2 hl2
    have hfix := fix_main items (items.foldl xb_builder_nodetab_write_cb
        { arena := A, chunks := [Chunk.headerC hdr], level := 0 }).arena
      ((items.foldl xb_builder_nodetab_write_cb
        { arena := A, chunks := [Chunk.headerC hdr], level := 0 }).chunks ++ dT)
      (fun bb => siloNodeOf (aget A bb))
      (by
        intro it2 h2 hl2
        have hl2' : (aget A it2.bid).ignore = false := by rw [← hig]; exact hl2
        exact nodeRecAt_append_left _ _ _ _ (hmain it2 h2 hl2').2.2.1)
      (by
        intro it1 h1 it2 h2 hl1 hl2 hne
        have hl1' : (aget A it1.bid).ignore = false := by rw [← hig]; exact hl1
        have hl2' : (aget A it2.bid).ignore = false := by rw [← hig]; exact hl2
        exact (hmain it1 h1 hl1').2.2.2 it2 h2 hl2' hne)
      (by
        rw [filter_congr_local _ (fun it2 => !(aget A it2.bid).ignore) items
          (fun x _ => by rw [hig])]
        exact hnd)
      it hit (by rw [hig]; exact hl)
    refine ⟨_, hfix, ?_, ?_, ?_, ?_, ?_⟩
    · obtain ⟨f1, _, _, _, _, _⟩ := fixRec_fields (items.foldl xb_builder_nodetab_write_cb
        { arena := A, chunks := [Chunk.headerC hdr], level := 0 }).arena it
        (siloNodeOf (aget A it.bid))
      rw [f1]
      cases it.parentBid <;> rfl
    · obtain ⟨_, f2, _, _, _, _⟩ := fixRec_fields (items.foldl xb_builder_nodetab_write_cb
        { arena := A, chunks := [Chunk.headerC hdr], level := 0 }).arena it
        (siloNodeOf (aget A it.bid))
      rw [f2]
      cases it.nextBid <;> rfl
    · obtain ⟨_, _, _, _, f5, _⟩ := fixRec_fields (items.foldl xb_builder_nodetab_write_cb
        { arena := A, chunks := [Chunk.headerC hdr], level := 0 }).arena it
        (siloNodeOf (aget A it.bid))
      exact f5
    · obtain ⟨_, _, f3, _, _, _⟩ := fixRec_fields (items.foldl xb_builder_nodetab_write_cb
        { arena := A, chunks := [Chunk.headerC hdr], level := 0 }).arena it
        (siloNodeOf (aget A it.bid))
      exact f3
    · obtain ⟨_, _, _, f4, _, _⟩ := fixRec_fields (items.foldl xb_builder_nodetab_write_cb
        { arena := A, chunks := [Chunk.headerC hdr], level := 0 }).arena it
        (siloNodeOf (aget A it.bid))
      exact f4
  · intro bb hbb
    rw [emit_offset_stable items _ bb hbb]
    exact arena_offsets_zero A hz bb

/-- C1 (amended): in the fixup pass, each live node's record (at the offset
the write pass recorded on its builder node) receives `parent` equal to the
offset slot of the parent GNode's builder node, with `0` when the parent is
the synthetic root, and `next` equal to the offset slot of the *immediate*
next sibling's builder node, with `0` when there is none; builder nodes that
are never emitted (all of their occurrences ignored) keep offset slot `0`, so
an ignored parent or an ignored immediate next sibling contributes `0` even
when a live sibling follows further on.  The original claim's `next := offset
of the next live sibling` fails on the code: see
`nodetab_fix_next_skips_dead_cex`. -/
theorem nodetab_fix_parent_next (flags : Flags) (locales : List String) (b : Builder)
    (t : CompileTrace) (himp : compileTrace graftRef flags locales b = .ok t)
    (hz : t.arenaB.all (fun bn => bn.offset == 0) = true)
    (hnd : ((t.items.filter (fun it2 => !(aget t.arenaB it2.bid).ignore)).map
      Item.bid).Nodup)
    (hbd : ∀ it2 ∈ t.items, it2.bid < t.arenaB.length) :
    (∀ it ∈ t.items, (aget t.arenaB it.bid).ignore = false →
      ∃ r, nodeRecAt t.chunks ((aget t.emitSt.arena it.bid).offset) = some r
        ∧ r.parent = (match it.parentBid with
            | some pb => (aget t.emitSt.arena pb).offset
            | none => 0)
        ∧ r.next = (match it.nextBid with
            | some nb => (aget t.emitSt.arena nb).offset
            | none => 0)
        ∧ r.elementName = (aget t.arenaB it.bid).elementIdx
        ∧ r.hasText = (aget t.arenaB it.bid).text.isSome
        ∧ r.nrAttrs = (aget t.arenaB it.bid).attrs.length)
    ∧ ∀ bb : Nat, (∀ it ∈ t.items, it.bid = bb → (aget t.arenaB it.bid).ignore = true) →
        (aget t.emitSt.arena bb).offset = 0 := by
  obtain ⟨a0, k0, _, ht⟩ := compileTrace_ok _ _ _ _ _ himp
  subst ht
  exact passCD_main (compileTables b a0 k0).items (compileTables b a0 k0).arenaB
    (compileTables b a0 k0).hdr (compileTables b a0 k0).emitSt
    (compileTables b a0 k0).chunks
    (compileTables_emitSt b a0 k0) (compileTables_chunks b a0 k0) hz hnd hbd

/-! ### Size accounting for the write pass -/

theorem blen_replicate_sent : ∀ (n : Nat), blen (List.replicate n Chunk.sentinelC) = n
  | 0 => rfl
  | n+1 => by
    rw [List.replicate_succ, blen_cons, blen_replicate_sent n]
    simp [chunkSize]
    omega

theorem blen_attr_map : ∀ (l : List BAttr),
    blen (l.map (fun a => Chunk.attrC a.nameIdx a.valueIdx)) = l.length * sizeofXbSiloAttr := by
  intro l
  induction l with
  | nil => rfl
  | cons a l ih =>
    rw [List.map_cons, blen_cons, ih]
    simp [chunkSize]
    ring

theorem filterMap_congr_local {α β} (f g : α → Option β) :
    ∀ (l : List α), (∀ a ∈ l, f a = g a) → l.filterMap f = l.filterMap g := by
  intro l
  induction l with
  | nil => intro _; rfl
  | cons a l ih =>
    intro h
    rw [List.filterMap_cons, List.filterMap_cons, h a (by simp),
      ih (fun x hx => h x (by simp [hx]))]

theorem liveList_congr (a1 a2 : Arena)
    (h : ∀ i, (aget a1 i).ignore = (aget a2 i).ignore
      ∧ emitBytesOf (aget a1 i) = emitBytesOf (aget a2 i)) :
    ∀ (items : List Item), liveList a1 items = liveList a2 items := by
  intro items
  refine filterMap_congr_local _ _ items (fun it _ => ?_)
  show (if (aget a1 it.bid).ignore = true then none
      else some (emitBytesOf (aget a1 it.bid), it.depth))
    = (if (aget a2 it.bid).ignore = true then none
      else some (emitBytesOf (aget a2 it.bid), it.depth))
  rw [(h it.bid).1, (h it.bid).2]

theorem wcb_liveList (st : EmitSt) (it0 : Item) (items : List Item) :
    liveList (xb_builder_nodetab_write_cb st it0).arena items = liveList st.arena items := by
  refine liveList_congr _ _ (fun i => ⟨?_, ?_⟩) items
  · exact wcb_arena_proj (fun bn => bn.ignore) (fun _ _ => rfl) st it0 i
  · exact wcb_arena_proj emitBytesOf (fun _ _ => rfl) st it0 i

/-- The write pass adds exactly the live nodes' record bytes plus the
inter-node sentinels, and leaves the emitter at the last live depth. -/
theorem emit_blen_level : ∀ (items : List Item) (st : EmitSt),
    blen (items.foldl xb_builder_nodetab_write_cb st).chunks
      = blen st.chunks + ((liveList st.arena items).map Prod.fst).sum
        + sentAux st.level ((liveList st.arena items).map Prod.snd)
    ∧ (items.foldl xb_builder_nodetab_write_cb st).level
      = lastLevel st.level ((liveList st.arena items).map Prod.snd) := by
  intro items
  induction items with
  | nil => intro st; exact ⟨by simp [liveList, sentAux], by simp [liveList, lastLevel]⟩
  | cons it0 rest ih =>
    intro st
    rw [List.foldl_cons]
    by_cases hig : (aget st.arena it0.bid).ignore = true
    · rw [wcb_ignored st it0 hig]
      have hl : liveList st.arena (it0 :: rest) = liveList st.arena rest := by
        unfold liveList
        rw [List.filterMap_cons]
        simp [hig]
      rw [hl]
      exact ih st
    · have hl0 : (aget st.arena it0.bid).ignore = false := by simpa using hig
      have hl : liveList st.arena (it0 :: rest)
          = (emitBytesOf (aget st.arena it0.bid), it0.depth) :: liveList st.arena rest := by
        unfold liveList
        rw [List.filterMap_cons]
        simp [hl0, emitBytesOf]
      rw [hl]
      obtain ⟨ihb, ihl⟩ := ih (xb_builder_nodetab_write_cb st it0)
      have harena : liveList (xb_builder_nodetab_write_cb st it0).arena rest
          = liveList st.arena rest := wcb_liveList st it0 rest
      rw [harena] at ihb ihl
      have hblen : blen (xb_builder_nodetab_write_cb st it0).chunks
          = blen st.chunks
            + (if it0.depth ≤ st.level then st.level - it0.depth + 1 else 0)
            + emitBytesOf (aget st.arena it0.bid) := by
        rw [wcb_live st it0 hl0]
        show blen (st.chunks ++ _ ++ _ ++ _) = _
        rw [blen_append, blen_append, blen_append, blen_replicate_sent,
          blen_attr_map, blen_cons, blen_nil]
        unfold emitBytesOf
        have : chunkSize (Chunk.nodeC (siloNodeOf (aget st.arena it0.bid)))
            = if (aget st.arena it0.bid).text.isSome then sizeofXbSiloNode
              else sizeofXbSiloNode - sizeofGuint32 := by
          simp [chunkSize, siloNodeOf]
        rw [this]
        omega
      have hlevel : (xb_builder_nodetab_write_cb st it0).level = it0.depth := by
        rw [wcb_live st it0 hl0]
      constructor
      · rw [ihb, hblen, hlevel]
        show _ = blen st.chunks
            + (emitBytesOf (aget st.arena it0.bid)
              + ((liveList st.arena rest).map Prod.fst).sum)
          + ((if it0.depth ≤ st.level then st.level - it0.depth + 1 else 0)
            + sentAux it0.depth ((liveList st.arena rest).map Prod.snd))
        omega
      · rw [ihl, hlevel]
        rfl

theorem emitTrailing_blen (st : EmitSt) :
    blen (emitTrailing st).chunks
      = blen st.chunks + (if st.level > 0 then st.level - 1 else 0) := by
  unfold emitTrailing
  split
  · exact (blen_append _ _).trans (by rw [blen_replicate_sent])
  · omega

theorem sizecb_step (arena : Arena) (sz : Nat) (it : Item) :
    xb_builder_nodetab_size_cb arena sz it
      = sz + (if (aget arena it.bid).ignore then 0
          else emitBytesOf (aget arena it.bid) + 1) := by
  unfold xb_builder_nodetab_size_cb
  by_cases hig : (aget arena it.bid).ignore = true
  · simp [hig]
  · have hl : (aget arena it.bid).ignore = false := by simpa using hig
    simp only [hl]
    cases ht : (aget arena it.bid).text with
    | none =>
      simp only [ht, Option.isNone_none, if_true, if_false, Bool.false_eq_true]
      unfold xb_builder_node_size emitBytesOf
      rw [ht]
      simp [sizeofXbSiloNode, sizeofXbSiloAttr, sizeofGuint32]
      omega
    | some s =>
      simp only [ht, Option.isNone_some, Bool.false_eq_true, if_false]
      unfold xb_builder_node_size emitBytesOf
      rw [ht]
      simp [sizeofXbSiloNode, sizeofXbSiloAttr, sizeofGuint32]
      omega

theorem sizecb_fold : ∀ (items : List Item) (arena : Arena) (sz : Nat),
    items.foldl (xb_builder_nodetab_size_cb arena) sz
      = sz + ((liveList arena items).map Prod.fst).sum + (liveList arena items).length := by
  intro items
  induction items with
  | nil => intro arena sz; simp [liveList]
  | cons it0 rest ih =>
    intro arena sz
    rw [List.foldl_cons, sizecb_step, ih]
    unfold liveList
    rw [List.filterMap_cons]
    by_cases hig : (aget arena it0.bid).ignore = true
    · simp [hig]
    · have hl : (aget arena it0.bid).ignore = false := by simpa using hig
      simp only [hl, if_false, Bool.false_eq_true]
      show sz + (emitBytesOf (aget arena it0.bid) + 1) + _ + _ = _
      simp only [List.map_cons, List.sum_cons, List.length_cons]
      omega

/-! ### Sentinel counting for hereditary forests -/

theorem sentAux_total : ∀ (ds : List Nat) (l : Nat), 1 ≤ l →
    List.Chain' (fun a b => b ≤ a + 1) (l :: ds) → (∀ d ∈ ds, 2 ≤ d) →
    sentAux l ds + (lastLevel l ds - 1) = ds.length + (l - 1) := by
  intro ds
  induction ds with
  | nil => intro l h1 _ _; simp [sentAux, lastLevel]
  | cons d rest ih =>
    intro l h1 hch h2
    have hdl : d ≤ l + 1 := (List.chain'_cons.mp hch).1
    have hch2 : List.Chain' (fun a b => b ≤ a + 1) (d :: rest) := (List.chain'_cons.mp hch).2
    have hd2 : 2 ≤ d := h2 d (by simp)
    have hihd := ih d (by omega) hch2 (fun x hx => h2 x (by simp [hx]))
    show (if d ≤ l then l - d + 1 else 0) + sentAux d rest + (lastLevel d rest - 1)
      = (rest.length + 1) + (l - 1)
    by_cases hle : d ≤ l
    · rw [if_pos hle]
      omega
    · rw [if_neg hle]
      omega

theorem lastLevel_ge : ∀ (ds : List Nat) (l : Nat), 2 ≤ l → (∀ d ∈ ds, 2 ≤ d) →
    2 ≤ lastLevel l ds := by
  intro ds
  induction ds with
  | nil => intro l hl _; exact hl
  | cons d rest ih =>
    intro l _ h2
    exact ih d (h2 d (by simp)) (fun x hx => h2 x (by simp [hx]))

/-- With a live-depth sequence of a hereditary forest (first live depth is 2,
steps never exceed +1), the inter-node sentinels plus the trailing ones count
exactly one sentinel per live node. -/
theorem sentAux_from_zero (ds : List Nat) (h2 : ∀ d ∈ ds, 2 ≤ d)
    (hhead : ds.head? = none ∨ ds.head? = some 2)
    (hchain : List.Chain' (fun a b => b ≤ a + 1) ds) :
    sentAux 0 ds + (if lastLevel 0 ds > 0 then lastLevel 0 ds - 1 else 0) = ds.length := by
  cases ds with
  | nil => simp [sentAux, lastLevel]
  | cons d rest =>
    have hd : d = 2 := by
      rcases hhead with h | h
      · simp at h
      · simpa using h
    subst hd
    show (if 2 ≤ 0 then 0 - 2 + 1 else 0) + sentAux 2 rest
        + (if lastLevel 2 rest > 0 then lastLevel 2 rest - 1 else 0)
      = rest.length + 1
    rw [if_neg (by omega)]
    have hge := lastLevel_ge rest 2 (by omega) (fun x hx => h2 x (by simp [hx]))
    rw [if_pos (by omega)]
    have := sentAux_total rest 2 (by omega) hchain (fun x hx => h2 x (by simp [hx]))
    omega

/-! ### Hereditary flags give well-shaped live-depth sequences -/

theorem GoodD_nil (d : Nat) : GoodD d [] := by
  refine ⟨by simp, Or.inl rfl, by simp⟩

theorem GoodD_append (d : Nat) (xs ys : List Nat)
    (hx : GoodD d xs) (hy : GoodD d ys) : GoodD d (xs ++ ys) := by
  obtain ⟨hx1, hx2, hx3⟩ := hx
  obtain ⟨hy1, hy2, hy3⟩ := hy
  refine ⟨?_, ?_, ?_⟩
  · intro x hx'
    rcases List.mem_append.mp hx' with h | h
    · exact hx1 x h
    · exact hy1 x h
  · cases xs with
    | nil => simpa using hy2
    | cons x xs' =>
      right
      have : x = d := by
        rcases hx2 with h | h
        · simp at h
        · simpa using h
      simp [this]
  · refine List.Chain'.append hx3 hy3 ?_
    intro x hxl y hyh
    have hxm : x ∈ xs := List.mem_of_mem_getLast? hxl
    have hyd : d = y := by
      rcases hy2 with h | h
      · rw [h] at hyh; simp at hyh
      · rw [h] at hyh; simpa using hyh
    have := hx1 x hxm
    omega

theorem GoodD_cons (d : Nat) (tail : List Nat) (h : GoodD (d+1) tail) :
    GoodD d (d :: tail) := by
  obtain ⟨h1, h2, h3⟩ := h
  refine ⟨?_, Or.inr rfl, ?_⟩
  · intro x hx
    rcases List.mem_cons.mp hx with he | hm
    · omega
    · have := h1 x hm
      omega
  · rw [List.chain'_cons']
    refine ⟨?_, h3⟩
    intro y hy
    have : d + 1 = y := by
      rcases h2 with h | h
      · rw [h] at hy; simp at hy
      · rw [h] at hy; simpa using hy
    omega

mutual
theorem allIgnT_dead (arena : Arena) : ∀ (t : GT) (d : Nat) (pb nx : Option Nat),
    allIgnT arena t = true → liveList arena (itemsT t d pb nx) = []
  | .mk b kids, d, pb, nx, h => by
    rw [allIgnT, Bool.and_eq_true] at h
    have hb : (aget arena b).ignore = true := h.1
    have hk : allIgnF arena kids = true := h.2
    rw [itemsT]
    unfold liveList
    rw [List.filterMap_cons]
    simp only [hb, if_true]
    exact allIgnF_dead arena kids (d+1) (some b) hk
theorem allIgnF_dead (arena : Arena) : ∀ (ts : GTs) (d : Nat) (pb : Option Nat),
    allIgnF arena ts = true → liveList arena (itemsF ts d pb) = []
  | .nil, _, _, _ => rfl
  | .cons t ts, d, pb, h => by
    rw [allIgnF, Bool.and_eq_true] at h
    rw [itemsF]
    unfold liveList
    rw [List.filterMap_append]
    have h1 := allIgnT_dead arena t d pb (headBid ts) h.1
    have h2 := allIgnF_dead arena ts d pb h.2
    unfold liveList at h1 h2
    rw [h1, h2]
    rfl
end

mutual
theorem goodT (arena : Arena) : ∀ (t : GT) (d : Nat) (pb nx : Option Nat),
    2 ≤ d → heredT arena t = true →
    GoodD d ((liveList arena (itemsT t d pb nx)).map Prod.snd)
  | .mk b kids, d, pb, nx, hd, h => by
    rw [heredT] at h
    by_cases hb : (aget arena b).ignore = true
    · rw [if_pos hb] at h
      rw [allIgnT_dead arena (.mk b kids) d pb nx h]
      exact GoodD_nil d
    · have hbf : (aget arena b).ignore = false := by simpa using hb
      rw [if_neg hb] at h
      rw [itemsT]
      unfold liveList
      rw [List.filterMap_cons]
      simp only [hbf, Bool.false_eq_true, if_false]
      rw [List.map_cons]
      exact GoodD_cons d _ (goodF arena kids (d+1) (some b) (by omega) h)
theorem goodF (arena : Arena) : ∀ (ts : GTs) (d : Nat) (pb : Option Nat),
    2 ≤ d → heredF arena ts = true →
    GoodD d ((liveList arena (itemsF ts d pb)).map Prod.snd)
  | .nil, d, _, _, _ => GoodD_nil d
  | .cons t ts, d, pb, hd, h => by
    rw [heredF, Bool.and_eq_true] at h
    rw [itemsF]
    unfold liveList
    rw [List.filterMap_append, List.map_append]
    exact GoodD_append d _ _
      (goodT arena t d pb (headBid ts) hd h.1)
      (goodF arena ts d pb hd h.2)
end

/-! ### The interning passes do not disturb liveness or node sizes -/

theorem internAttrNames_len : ∀ (st : Strtab) (l : List BAttr),
    ((internAttrNames st l).2).length = l.length
  | _, [] => rfl
  | st, a :: rest => by
    show ({ a with nameIdx := (xb_builder_compile_add_to_strtab st a.name).2 } ::
      (internAttrNames (xb_builder_compile_add_to_strtab st a.name).1 rest).2).length
      = (a :: rest).length
    rw [List.length_cons, List.length_cons, internAttrNames_len _ rest]

theorem internAttrValues_len : ∀ (st : Strtab) (l : List BAttr),
    ((internAttrValues st l).2).length = l.length
  | _, [] => rfl
  | st, a :: rest => by
    show ({ a with valueIdx := (xb_builder_compile_add_to_strtab st a.value).2 } ::
      (internAttrValues (xb_builder_compile_add_to_strtab st a.value).1 rest).2).length
      = (a :: rest).length
    rw [List.length_cons, List.length_cons, internAttrValues_len _ rest]

theorem foldlB_proj {α} (proj : BN → α)
    (step : (Arena × Strtab) → Nat → (Arena × Strtab))
    (hstep : ∀ (p : Arena × Strtab) (bb i : Nat),
      proj (aget ((step p bb).1) i) = proj (aget p.1 i)) :
    ∀ (bids : List Nat) (p : Arena × Strtab) (i : Nat),
    proj (aget ((bids.foldl step p).1) i) = proj (aget p.1 i) := by
  intro bids
  induction bids with
  | nil => intro p i; rfl
  | cons b0 rest ih =>
    intro p i
    rw [List.foldl_cons, ih, hstep]

theorem elemStep_projIE (p : Arena × Strtab) (bb i : Nat) :
    projIE (aget ((strtabElementNamesStep p bb).1) i) = projIE (aget p.1 i) := by
  unfold strtabElementNamesStep
  by_cases h : (aget p.1 bb).ignore = true
  · simp [h]
  · rw [if_neg h]
    exact aget_aset_proj projIE p.1 bb i _ rfl

theorem attrNameStep_projIE (p : Arena × Strtab) (bb i : Nat) :
    projIE (aget ((strtabAttrNameStep p bb).1) i) = projIE (aget p.1 i) := by
  unfold strtabAttrNameStep
  by_cases h : (aget p.1 bb).ignore = true
  · simp [h]
  · rw [if_neg h]
    refine aget_aset_proj projIE p.1 bb i _ ?_
    unfold projIE emitBytesOf
    rw [internAttrNames_len]

theorem attrValueStep_projIE (p : Arena × Strtab) (bb i : Nat) :
    projIE (aget ((strtabAttrValueStep p bb).1) i) = projIE (aget p.1 i) := by
  unfold strtabAttrValueStep
  by_cases h : (aget p.1 bb).ignore = true
  · simp [h]
  · rw [if_neg h]
    refine aget_aset_proj projIE p.1 bb i _ ?_
    unfold projIE emitBytesOf
    rw [internAttrValues_len]

theorem textStep_projIE (p : Arena × Strtab) (bb i : Nat) :
    projIE (aget ((strtabTextStep p bb).1) i) = projIE (aget p.1 i) := by
  unfold strtabTextStep
  by_cases h : (aget p.1 bb).ignore = true
  · simp [h]
  · rw [if_neg h]
    cases ht : (aget p.1 bb).text with
    | none => rfl
    | some s =>
      refine aget_aset_proj projIE p.1 bb i _ ?_
      unfold projIE emitBytesOf
      rw [ht]

theorem compileTables_arenaP (b : Builder) (arena : Arena) (kids : List GT) :
    (compileTables b arena kids).arenaP = arena := rfl

theorem compileTables_arenaB (b : Builder) (arena : Arena) (kids : List GT) :
    (compileTables b arena kids).arenaB
      = ((levelOrder (compileTables b arena kids).kids).foldl strtabTextStep
          ((levelOrder (compileTables b arena kids).kids).foldl strtabAttrValueStep
            ((levelOrder (compileTables b arena kids).kids).foldl strtabAttrNameStep
              ((levelOrder (compileTables b arena kids).kids).foldl strtabElementNamesStep
                (arena, {}))))).1 := rfl

theorem passB_projIE (b : Builder) (arena : Arena) (kids : List GT) (i : Nat) :
    projIE (aget (compileTables b arena kids).arenaB i)
      = projIE (aget (compileTables b arena kids).arenaP i) := by
  rw [compileTables_arenaB, compileTables_arenaP,
    foldlB_proj projIE strtabTextStep textStep_projIE,
    foldlB_proj projIE strtabAttrValueStep attrValueStep_projIE,
    foldlB_proj projIE strtabAttrNameStep attrNameStep_projIE,
    foldlB_proj projIE strtabElementNamesStep elemStep_projIE]

/-- C2 (amended): the size pass exactly sizes the node table, and the header's
`strtab` field is the byte offset at which the string table begins in the
emitted blob, *provided* the forest's `IGNORE_CDATA` flags are hereditary
(no live node below an ignored one).  The original unconditional claim fails:
an info tree grafted under a top-level element that `NATIVE_LANGS` ignored is
live inside an ignored subtree and the sentinel accounting comes apart, see
`nodetab_size_mismatch_cex`. -/
theorem nodetab_size_exact_hered (flags : Flags) (locales : List String) (b : Builder)
    (t : CompileTrace) (himp : compileTrace graftRef flags locales b = .ok t)
    (hhered : heredF t.arenaB (GTs.ofList t.kids) = true) :
    t.hdr.strtab = blen t.chunks
    ∧ xb_builder_compile flags locales b
        = .ok { chunks := t.chunks, strtab := t.strtab.buf } := by
  constructor
  · obtain ⟨a0, k0, _, ht⟩ := compileTrace_ok _ _ _ _ _ himp
    subst ht
    have hstrtab : (compileTables b a0 k0).hdr.strtab
        = (compileTables b a0 k0).nodetabsz := rfl
    rw [hstrtab]
    -- the fixups do not change the buffer length
    have hfix : blen (compileTables b a0 k0).chunks
        = blen (compileTables b a0 k0).emitSt.chunks := by
      rw [compileTables_chunks]
      exact fix_blen _ _ _
    -- write pass byte count
    obtain ⟨hb, hl⟩ := emit_blen_level (compileTables b a0 k0).items
      { arena := (compileTables b a0 k0).arenaB
        chunks := [Chunk.headerC (compileTables b a0 k0).hdr], level := 0 }
    have hb' : blen ((compileTables b a0 k0).items.foldl xb_builder_nodetab_write_cb
        { arena := (compileTables b a0 k0).arenaB
          chunks := [Chunk.headerC (compileTables b a0 k0).hdr], level := 0 }).chunks
        = sizeofXbSiloHeader
          + ((liveList (compileTables b a0 k0).arenaB (compileTables b a0 k0).items).map
              Prod.fst).sum
          + sentAux 0 ((liveList (compileTables b a0 k0).arenaB
              (compileTables b a0 k0).items).map Prod.snd) := by
      have hh : blen [Chunk.headerC (compileTables b a0 k0).hdr] = sizeofXbSiloHeader := by
        simp [blen, chunkSize]
      rw [hb]
      rw [hh]
    have hl' : ((compileTables b a0 k0).items.foldl xb_builder_nodetab_write_cb
        { arena := (compileTables b a0 k0).arenaB
          chunks := [Chunk.headerC (compileTables b a0 k0).hdr], level := 0 }).level
        = lastLevel 0 ((liveList (compileTables b a0 k0).arenaB
            (compileTables b a0 k0).items).map Prod.snd) := hl
    have htrail := emitTrailing_blen ((compileTables b a0 k0).items.foldl
      xb_builder_nodetab_write_cb
      { arena := (compileTables b a0 k0).arenaB
        chunks := [Chunk.headerC (compileTables b a0 k0).hdr], level := 0 })
    have hEc : (compileTables b a0 k0).emitSt.chunks
        = (emitTrailing ((compileTables b a0 k0).items.foldl xb_builder_nodetab_write_cb
          { arena := (compileTables b a0 k0).arenaB
            chunks := [Chunk.headerC (compileTables b a0 k0).hdr],
            level := 0 })).chunks := rfl
    -- the sentinel count is the live node count
    have hgood := goodF (compileTables b a0 k0).arenaB
      (GTs.ofList (compileTables b a0 k0).kids) 2 none (by omega) hhered
    have hitems : (compileTables b a0 k0).items
        = itemsF (GTs.ofList (compileTables b a0 k0).kids) 2 none := rfl
    have hsent := sentAux_from_zero
      ((liveList (compileTables b a0 k0).arenaB
        (itemsF (GTs.ofList (compileTables b a0 k0).kids) 2 none)).map Prod.snd)
      hgood.1 hgood.2.1 hgood.2.2
    -- size pass
    have hA := sizecb_fold (compileTables b a0 k0).items
      (compileTables b a0 k0).arenaP sizeofXbSiloHeader
    have hPB : liveList (compileTables b a0 k0).arenaP (compileTables b a0 k0).items
        = liveList (compileTables b a0 k0).arenaB (compileTables b a0 k0).items := by
      refine liveList_congr _ _ (fun i => ?_) _
      have := passB_projIE b a0 k0 i
      unfold projIE at this
      exact ⟨(congrArg Prod.fst this).symm, (congrArg Prod.snd this).symm⟩
    have hN : (compileTables b a0 k0).nodetabsz
        = sizeofXbSiloHeader
          + ((liveList (compileTables b a0 k0).arenaB (compileTables b a0 k0).items).map
              Prod.fst).sum
          + (liveList (compileTables b a0 k0).arenaB (compileTables b a0 k0).items).length := by
      rw [compileTables_nodetabsz, hA, hPB]
    have hlen : ((liveList (compileTables b a0 k0).arenaB
        (compileTables b a0 k0).items).map Prod.snd).length
        = (liveList (compileTables b a0 k0).arenaB (compileTables b a0 k0).items).length :=
      List.length_map _ _
    rw [hN, hfix, hEc, htrail, hb', hl']
    rw [hitems] at *
    omega
  · unfold xb_builder_compile
    rw [himp]

/-! ### Concrete counterexamples and witnesses for the node-table claims -/

set_option maxRecDepth 1000000

/-- C1 counterexample: compiling `<r><a/><b xml:lang="fr"/><c/></r>` under
`NATIVE_LANGS` with locales `en,C` (so `b`, id 2, is ignored while its later
sibling `c`, id 3, is live at offset 65), the record of `a` (id 1) carries
`next = 0` — the offset slot of the ignored immediate sibling — although the
claim demands the next *live* sibling's offset 65. -/
theorem nodetab_fix_next_skips_dead_cex :
    compileTrace graftRef { nativeLangs := true } demoLocales demoCex1
      = .ok (traceOf { nativeLangs := true } demoLocales demoCex1)
    ∧ (traceOf { nativeLangs := true } demoLocales demoCex1).kids
        = [GT.mk 0 (GTs.ofList [GT.mk 1 .nil, GT.mk 2 .nil, GT.mk 3 .nil])]
    ∧ (aget (traceOf { nativeLangs := true } demoLocales demoCex1).arenaB 1).ignore = false
    ∧ (aget (traceOf { nativeLangs := true } demoLocales demoCex1).arenaB 2).ignore = true
    ∧ (aget (traceOf { nativeLangs := true } demoLocales demoCex1).arenaB 3).ignore = false
    ∧ specNextLiveOffset (traceOf { nativeLangs := true } demoLocales demoCex1).emitSt.arena
        [GT.mk 2 .nil, GT.mk 3 .nil] = 65
    ∧ (nodeRecAt (traceOf { nativeLangs := true } demoLocales demoCex1).chunks
        ((aget (traceOf { nativeLangs := true } demoLocales demoCex1).emitSt.arena 1).offset)).map
        SiloNodeRec.next = some 0
    ∧ (0 : Nat) ≠ 65 :=
  ⟨rfl, by decide, by decide, by decide, by decide, by decide, by decide, by decide⟩

/-- Witness for the amended C1 theorem at the same concrete compile. -/
theorem nodetab_fix_parent_next_witness :
    ((traceOf { nativeLangs := true } demoLocales demoCex1).arenaB.all
      (fun bn => bn.offset == 0) = true)
    ∧ ((∀ it ∈ (traceOf { nativeLangs := true } demoLocales demoCex1).items,
        (aget (traceOf { nativeLangs := true } demoLocales demoCex1).arenaB it.bid).ignore
          = false →
        ∃ r, nodeRecAt (traceOf { nativeLangs := true } demoLocales demoCex1).chunks
            ((aget (traceOf { nativeLangs := true } demoLocales
              demoCex1).emitSt.arena it.bid).offset) = some r
          ∧ r.parent = (match it.parentBid with
              | some pb => (aget (traceOf { nativeLangs := true } demoLocales
                  demoCex1).emitSt.arena pb).offset
              | none => 0)
          ∧ r.next = (match it.nextBid with
              | some nb => (aget (traceOf { nativeLangs := true } demoLocales
                  demoCex1).emitSt.arena nb).offset
              | none => 0)
          ∧ r.elementName = (aget (traceOf { nativeLangs := true } demoLocales
              demoCex1).arenaB it.bid).elementIdx
          ∧ r.hasText = (aget (traceOf { nativeLangs := true } demoLocales
              demoCex1).arenaB it.bid).text.isSome
          ∧ r.nrAttrs = (aget (traceOf { nativeLangs := true } demoLocales
              demoCex1).arenaB it.bid).attrs.length)
      ∧ ∀ bb : Nat, (∀ it ∈ (traceOf { nativeLangs := true } demoLocales demoCex1).items,
          it.bid = bb →
          (aget (traceOf { nativeLangs := true } demoLocales demoCex1).arenaB it.bid).ignore
            = true) →
          (aget (traceOf { nativeLangs := true } demoLocales
            demoCex1).emitSt.arena bb).offset = 0) :=
  ⟨by decide,
   nodetab_fix_parent_next { nativeLangs := true } demoLocales demoCex1
     (traceOf { nativeLangs := true } demoLocales demoCex1) rfl
     (by decide) (by decide) (by decide)⟩

/-- C2 counterexample: `<a xml:lang="fr"/>` whose import carries an info
tree, compiled with `NATIVE_LANGS` and locales `en,C`: the info node is live
under the ignored top-level `a`, the size pass predicts a string-table offset
of 51 but the write pass emits 52 bytes of header plus node table, so the
header's `strtab` field does not match where the string table begins. -/
theorem nodetab_size_mismatch_cex :
    compileTrace graftRef { nativeLangs := true } demoLocales demoCex2
      = .ok (traceOf { nativeLangs := true } demoLocales demoCex2)
    ∧ xb_builder_compile { nativeLangs := true } demoLocales demoCex2
        = .ok { chunks := (traceOf { nativeLangs := true } demoLocales demoCex2).chunks
                strtab := (traceOf { nativeLangs := true } demoLocales demoCex2).strtab.buf }
    ∧ (traceOf { nativeLangs := true } demoLocales demoCex2).hdr.strtab = 51
    ∧ blen (traceOf { nativeLangs := true } demoLocales demoCex2).chunks = 52
    ∧ heredF (traceOf { nativeLangs := true } demoLocales demoCex2).arenaB
        (GTs.ofList (traceOf { nativeLangs := true } demoLocales demoCex2).kids) = false
    ∧ (51 : Nat) ≠ 52 :=
  ⟨rfl, rfl, by decide, by decide, by decide, by decide⟩

/-- Witness for the amended C2 theorem on the S1 fixture, whose flags are
hereditary. -/
theorem nodetab_size_exact_hered_witness :
    heredF (traceOf {} demoLocales demoS1).arenaB
      (GTs.ofList (traceOf {} demoLocales demoS1).kids) = true
    ∧ ((traceOf {} demoLocales demoS1).hdr.strtab
        = blen (traceOf {} demoLocales demoS1).chunks
      ∧ xb_builder_compile {} demoLocales demoS1
          = .ok { chunks := (traceOf {} demoLocales demoS1).chunks
                  strtab := (traceOf {} demoLocales demoS1).strtab.buf }) :=
  ⟨by decide,
   nodetab_size_exact_hered {} demoLocales demoS1 (traceOf {} demoLocales demoS1)
     rfl (by decide)⟩

/-! ### The compile leaves pre-existing builder nodes structurally untouched -/

theorem internAttrNames_nv : ∀ (st : Strtab) (l : List BAttr),
    ((internAttrNames st l).2).map (fun a => (a.name, a.value))
      = l.map (fun a => (a.name, a.value))
  | _, [] => rfl
  | st, a :: rest => by
    show ({ a with nameIdx := (xb_builder_compile_add_to_strtab st a.name).2 } ::
      (internAttrNames (xb_builder_compile_add_to_strtab st a.name).1 rest).2).map
        (fun a => (a.name, a.value)) = _
    rw [List.map_cons, List.map_cons, internAttrNames_nv _ rest]

theorem internAttrValues_nv : ∀ (st : Strtab) (l : List BAttr),
    ((internAttrValues st l).2).map (fun a => (a.name, a.value))
      = l.map (fun a => (a.name, a.value))
  | _, [] => rfl
  | st, a :: rest => by
    show ({ a with valueIdx := (xb_builder_compile_add_to_strtab st a.value).2 } ::
      (internAttrValues (xb_builder_compile_add_to_strtab st a.value).1 rest).2).map
        (fun a => (a.name, a.value)) = _
    rw [List.map_cons, List.map_cons, internAttrValues_nv _ rest]

theorem elemStep_structural (p : Arena × Strtab) (bb i : Nat) :
    structuralOf (aget ((strtabElementNamesStep p bb).1) i) = structuralOf (aget p.1 i) := by
  unfold strtabElementNamesStep
  by_cases h : (aget p.1 bb).ignore = true
  · simp [h]
  · rw [if_neg h]
    exact aget_aset_proj structuralOf p.1 bb i _ rfl

theorem attrNameStep_structural (p : Arena × Strtab) (bb i : Nat) :
    structuralOf (aget ((strtabAttrNameStep p bb).1) i) = structuralOf (aget p.1 i) := by
  unfold strtabAttrNameStep
  by_cases h : (aget p.1 bb).ignore = true
  · simp [h]
  · rw [if_neg h]
    refine aget_aset_proj structuralOf p.1 bb i _ ?_
    unfold structuralOf
    rw [internAttrNames_nv]

theorem attrValueStep_structural (p : Arena × Strtab) (bb i : Nat) :
    structuralOf (aget ((strtabAttrValueStep p bb).1) i) = structuralOf (aget p.1 i) := by
  unfold strtabAttrValueStep
  by_cases h : (aget p.1 bb).ignore = true
  · simp [h]
  · rw [if_neg h]
    refine aget_aset_proj structuralOf p.1 bb i _ ?_
    unfold structuralOf
    rw [internAttrValues_nv]

theorem textStep_structural (p : Arena × Strtab) (bb i : Nat) :
    structuralOf (aget ((strtabTextStep p bb).1) i) = structuralOf (aget p.1 i) := by
  unfold strtabTextStep
  by_cases h : (aget p.1 bb).ignore = true
  · simp [h]
  · rw [if_neg h]
    cases ht : (aget p.1 bb).text with
    | none => rfl
    | some s =>
      refine aget_aset_proj structuralOf p.1 bb i _ ?_
      unfold structuralOf
      rw [ht]

theorem passB_structural (b : Builder) (arena : Arena) (kids : List GT) (i : Nat) :
    structuralOf (aget (compileTables b arena kids).arenaB i)
      = structuralOf (aget (compileTables b arena kids).arenaP i) := by
  rw [compileTables_arenaB, compileTables_arenaP,
    foldlB_proj structuralOf strtabTextStep textStep_structural,
    foldlB_proj structuralOf strtabAttrValueStep attrValueStep_structural,
    foldlB_proj structuralOf strtabAttrNameStep attrNameStep_structural,
    foldlB_proj structuralOf strtabElementNamesStep elemStep_structural]

theorem startEl_spec (flags : Flags) (locales : List String) (h : PHelper)
    (name : String) (attrs : List (String × String)) :
    ∃ bn, xb_builder_compile_start_element_cb flags locales h name attrs
      = { arena := h.arena ++ [bn], stack := (some h.arena.length, []) :: h.stack } :=
  ⟨_, rfl⟩

theorem endEl_graftRef_arena (info : Option Nat) (h : PHelper) :
    (xb_builder_compile_end_element_cb graftRef info h).arena = h.arena := by
  unfold xb_builder_compile_end_element_cb
  cases hs : h.stack with
  | nil => rfl
  | cons fr rest =>
    obtain ⟨cb, ckids⟩ := fr
    cases rest with
    | nil => cases info <;> cases cb <;> rfl
    | cons f2 rest2 =>
      obtain ⟨pb, pkids⟩ := f2
      cases rest2 with
      | nil => cases info <;> cases cb <;> rfl
      | cons f3 rest3 => cases info <;> cases cb <;> rfl

theorem endEl_stack_bids (g : GraftFn) (info : Option Nat) (h : PHelper)
    (P : Option Nat → Prop) (hstk : ∀ fr ∈ h.stack, P fr.1) :
    ∀ fr ∈ (xb_builder_compile_end_element_cb g info h).stack, P fr.1 := by
  unfold xb_builder_compile_end_element_cb
  cases hs : h.stack with
  | nil =>
    intro fr hfr
    exact hstk fr hfr
  | cons fr0 rest =>
    have hall : ∀ fr ∈ (fr0 :: rest), P fr.1 := by rw [← hs]; exact hstk
    obtain ⟨cb, ckids⟩ := fr0
    cases rest with
    | nil =>
      cases info <;> cases cb <;>
        (intro fr hfr; simp at hfr)
    | cons f2 rest2 =>
      obtain ⟨pb, pkids⟩ := f2
      cases rest2 with
      | nil =>
        cases info <;> cases cb <;>
          (intro fr hfr
           simp at hfr
           rw [hfr]
           exact hall (pb, pkids) (by simp))
      | cons f3 rest3 =>
        cases info <;> cases cb <;>
          (intro fr hfr
           rcases List.mem_cons.mp hfr with he | hm
           · rw [he]
             exact hall (pb, pkids) (by simp)
           · exact hall fr (by simp [hm]))

theorem textEl_prefix (flags : Flags) (h : PHelper) (s : String) (L : Nat)
    (hlen : L ≤ h.arena.length)
    (hstk : ∀ fr ∈ h.stack, ∀ bfr : Nat, fr.1 = some bfr → L ≤ bfr) :
    L ≤ (xb_builder_compile_text_cb flags h s).arena.length
    ∧ (∀ j, j < L → aget (xb_builder_compile_text_cb flags h s).arena j = aget h.arena j)
    ∧ (xb_builder_compile_text_cb flags h s).stack = h.stack := by
  unfold xb_builder_compile_text_cb
  split
  · rename_i b0 ckids rest heq
    split
    · exact ⟨hlen, fun j _ => rfl, rfl⟩
    · split
      · exact ⟨hlen, fun j _ => rfl, rfl⟩
      · split
        · exact ⟨hlen, fun j _ => rfl, rfl⟩
        · have hbL : L ≤ b0 := hstk (some b0, ckids) (by rw [heq]; simp) b0 rfl
          refine ⟨?_, fun j hj => ?_, rfl⟩
          · show L ≤ (aset h.arena b0 _).length
            rw [aset_length]
            exact hlen
          · exact aget_aset_ne h.arena b0 j _ (by omega)
  · exact ⟨hlen, fun j _ => rfl, rfl⟩

/-- Running any event list with the reference graft strategy only appends to
the arena, never touches entries below a low-water mark that also bounds all
open-frame payload ids, and keeps that property of the stack. -/
theorem runEvents_prefix (flags : Flags) (locales : List String) (info : Option Nat)
    (L : Nat) : ∀ (es : List XEvent) (h : PHelper),
    L ≤ h.arena.length →
    (∀ fr ∈ h.stack, ∀ bfr : Nat, fr.1 = some bfr → L ≤ bfr) →
    L ≤ (runEvents graftRef flags locales info h es).arena.length
    ∧ (∀ j, j < L → aget (runEvents graftRef flags locales info h es).arena j
        = aget h.arena j)
    ∧ (∀ fr ∈ (runEvents graftRef flags locales info h es).stack, ∀ bfr : Nat,
        fr.1 = some bfr → L ≤ bfr) := by
  intro es
  induction es with
  | nil => intro h hlen hstk; exact ⟨hlen, fun j _ => rfl, hstk⟩
  | cons e es ih =>
    intro h hlen hstk
    cases e with
    | start name attrs =>
      have hstep : runEvents graftRef flags locales info h (XEvent.start name attrs :: es)
          = runEvents graftRef flags locales info
              (xb_builder_compile_start_element_cb flags locales h name attrs) es := rfl
      rw [hstep]
      obtain ⟨bn, heq⟩ := startEl_spec flags locales h name attrs
      rw [heq]
      have hlen1 : L ≤ (h.arena ++ [bn]).length := by
        rw [List.length_append]
        omega
      have hstk1 : ∀ fr ∈ ((some h.arena.length, ([] : List GT)) :: h.stack),
          ∀ bfr : Nat, fr.1 = some bfr → L ≤ bfr := by
        intro fr hfr bfr hb
        rcases List.mem_cons.mp hfr with he | hm
        · rw [he] at hb
          simp at hb
          omega
        · exact hstk fr hm bfr hb
      obtain ⟨c1, c2, c3⟩ := ih
        { arena := h.arena ++ [bn], stack := (some h.arena.length, []) :: h.stack }
        hlen1 hstk1
      refine ⟨c1, fun j hj => ?_, c3⟩
      rw [c2 j hj]
      show aget (h.arena ++ [bn]) j = aget h.arena j
      exact aget_append_left h.arena [bn] j (by omega)
    | endE =>
      have hstep : runEvents graftRef flags locales info h (XEvent.endE :: es)
          = runEvents graftRef flags locales info
              (xb_builder_compile_end_element_cb graftRef info h) es := rfl
      rw [hstep]
      have ha := endEl_graftRef_arena info h
      have hstk1 := endEl_stack_bids graftRef info h
        (fun o => ∀ bfr : Nat, o = some bfr → L ≤ bfr) hstk
      obtain ⟨c1, c2, c3⟩ := ih (xb_builder_compile_end_element_cb graftRef info h)
        (by rw [ha]; exact hlen) hstk1
      refine ⟨c1, fun j hj => ?_, c3⟩
      rw [c2 j hj, ha]
    | text s =>
      have hstep : runEvents graftRef flags locales info h (XEvent.text s :: es)
          = runEvents graftRef flags locales info
              (xb_builder_compile_text_cb flags h s) es := rfl
      rw [hstep]
      obtain ⟨h1, h2, h3⟩ := textEl_prefix flags h s L hlen hstk
      obtain ⟨c1, c2, c3⟩ := ih (xb_builder_compile_text_cb flags h s) h1
        (by rw [h3]; exact hstk)
      refine ⟨c1, fun j hj => ?_, c3⟩
      rw [c2 j hj, h2 j hj]

theorem compile_import_arena (flags : Flags) (locales : List String) (imp : Import)
    (arena : Arena) (kids : List GT) :
    (xb_builder_compile_import graftRef flags locales imp arena kids).1
      = (runEvents graftRef flags locales imp.info ⟨arena, [(none, kids)]⟩
          imp.events).arena := by
  unfold xb_builder_compile_import
  cases imp.tailErr with
  | some e => rfl
  | none =>
    show (if (runEvents graftRef flags locales imp.info ⟨arena, [(none, kids)]⟩
            imp.events).stack.length = 1
        then ((runEvents graftRef flags locales imp.info ⟨arena, [(none, kids)]⟩
            imp.events).arena,
          commitStack (runEvents graftRef flags locales imp.info ⟨arena, [(none, kids)]⟩
            imp.events).stack [], none)
        else ((runEvents graftRef flags locales imp.info ⟨arena, [(none, kids)]⟩
            imp.events).arena,
          commitStack (runEvents graftRef flags locales imp.info ⟨arena, [(none, kids)]⟩
            imp.events).stack [], some mismatchedXml)).1
      = (runEvents graftRef flags locales imp.info ⟨arena, [(none, kids)]⟩
          imp.events).arena
    split <;> rfl

theorem compile_import_prefix (flags : Flags) (locales : List String) (imp : Import)
    (arena : Arena) (kids : List GT) (L : Nat) (hlen : L ≤ arena.length) :
    L ≤ (xb_builder_compile_import graftRef flags locales imp arena kids).1.length
    ∧ ∀ j, j < L →
      aget (xb_builder_compile_import graftRef flags locales imp arena kids).1 j
        = aget arena j := by
  rw [compile_import_arena]
  have := runEvents_prefix flags locales imp.info L imp.events
    ⟨arena, [(none, kids)]⟩ hlen (by
      intro fr hfr bfr hb
      simp at hfr
      rw [hfr] at hb
      simp at hb)
  exact ⟨this.1, this.2.1⟩

theorem loop_prefix (flags : Flags) (locales : List String) (L : Nat) :
    ∀ (imps : List Import) (arena : Arena) (kids : List GT), L ≤ arena.length →
    ∀ a2 k2, compileImportLoop graftRef flags locales imps arena kids = .ok (a2, k2) →
    L ≤ a2.length ∧ ∀ j, j < L → aget a2 j = aget arena j := by
  intro imps
  induction imps with
  | nil =>
    intro arena kids hlen a2 k2 hok
    rw [compileImportLoop] at hok
    have h2 := (by simpa using hok : arena = a2 ∧ kids = k2)
    rw [← h2.1]
    exact ⟨hlen, fun j _ => rfl⟩
  | cons imp imps ih =>
    intro arena kids hlen a2 k2 hok
    rw [compileImportLoop] at hok
    obtain ⟨h1, h2⟩ := compile_import_prefix flags locales imp arena kids L hlen
    split at hok
    · split at hok
      · obtain ⟨c1, c2⟩ := ih _ _ h1 a2 k2 hok
        exact ⟨c1, fun j hj => by rw [c2 j hj, h2 j hj]⟩
      · exact absurd hok (by simp)
    · obtain ⟨c1, c2⟩ := ih _ _ h1 a2 k2 hok
      exact ⟨c1, fun j hj => by rw [c2 j hj, h2 j hj]⟩

theorem compile_structural_frame (flags : Flags) (locales : List String)
    (b : Builder) (t : CompileTrace)
    (himp : compileTrace graftRef flags locales b = .ok t) :
    ∀ j, j < b.arena.length →
      structuralOf (aget t.emitSt.arena j) = structuralOf (aget b.arena j) := by
  obtain ⟨a0, k0, hloop, ht⟩ := compileTrace_ok _ _ _ _ _ himp
  subst ht
  intro j hj
  obtain ⟨-, hpre⟩ := loop_prefix flags locales b.arena.length b.imports b.arena []
    le_rfl a0 k0 hloop
  rw [compileTables_emitSt, emitTrailing_arena,
    emit_arena_proj structuralOf (fun _ _ => rfl)]
  show structuralOf (aget (compileTables b a0 k0).arenaB j) = _
  rw [passB_structural, compileTables_arenaP, hpre j hj]

/-- **C3** (corrected).  When the parser closes a top-level element of
an import carrying an info tree, the info tree is indeed grafted beneath that
element, but *by reference* (`g_object_ref` in `xb_builder_compile_node_tree`),
not by deep copy: the builder-node arena is left exactly as it was and the
grafted spine's payloads are the import's own node ids, so one builder node
now sits at every graft position at once.  The import's info nodes do survive
any successful compile with their structural content (element, text,
attributes, children, flags) unchanged, but their transient slots are shared
between all graft positions, which makes the emitted records diverge from the
spec's deep-copy reading: see `info_graft_not_deep_copy_cex`. -/
theorem info_graft_by_reference :
    (∀ (arena : Arena) (i cb : Nat) (ckids rootKids : List GT),
      xb_builder_compile_end_element_cb graftRef (some i)
          { arena := arena, stack := [(some cb, ckids), (none, rootKids)] }
        = { arena := arena,
            stack := [(none, rootKids ++ [GT.mk cb (GTs.ofList
              (ckids ++ [nodeToGT arena (arena.length + 1) i]))])] })
    ∧ ∀ (flags : Flags) (locales : List String) (b : Builder) (t : CompileTrace),
        compileTrace graftRef flags locales b = .ok t →
        ∀ j, j < b.arena.length →
          structuralOf (aget t.emitSt.arena j) = structuralOf (aget b.arena j) :=
  ⟨fun _ _ _ _ _ => rfl, compile_structural_frame⟩

/-- Witness for the C3 theorem on the two-import fixture sharing one info
node: the graft characterization at its first import's close, and structural
preservation of the shared info node through the whole compile. -/
theorem info_graft_by_reference_witness :
    xb_builder_compile_end_element_cb graftRef (some 0)
        { arena := demoCex3.arena, stack := [(some 1, []), (none, [])] }
      = { arena := demoCex3.arena,
          stack := [(none, [GT.mk 1 (GTs.ofList
            ([] ++ [nodeToGT demoCex3.arena (demoCex3.arena.length + 1) 0]))])] }
    ∧ (compileTrace graftRef {} demoLocales demoCex3
        = .ok (traceOf {} demoLocales demoCex3)
      ∧ 0 < demoCex3.arena.length
      ∧ structuralOf (aget (traceOf {} demoLocales demoCex3).emitSt.arena 0)
          = structuralOf (aget demoCex3.arena 0)) :=
  ⟨info_graft_by_reference.1 demoCex3.arena 0 1 [] [],
   rfl, by decide,
   info_graft_by_reference.2 {} demoLocales demoCex3
     (traceOf {} demoLocales demoCex3) rfl 0 (by decide)⟩

/-- C3 counterexample: two imports sharing one info builder node.  Under the
code's by-reference graft the shared node has a single offset slot, written
once per emission with the last write surviving, so the fix pass patches only
the record of the node's *last* emission: the first grafted record, at byte
50, keeps `parent = 0`.  The spec's deep-copy pipeline allocates fresh copies
(final parse arena 5 instead of 3) and gives that record `parent = 36`, the
offset of its top-level element. -/
theorem info_graft_not_deep_copy_cex :
    compileTrace graftRef {} demoLocales demoCex3
      = .ok (traceOf {} demoLocales demoCex3)
    ∧ compileTrace graftDeepCopy {} demoLocales demoCex3
        = .ok (traceOfDC {} demoLocales demoCex3)
    ∧ (traceOf {} demoLocales demoCex3).arenaP.length = 3
    ∧ (traceOfDC {} demoLocales demoCex3).arenaP.length = 5
    ∧ (nodeRecAt (traceOf {} demoLocales demoCex3).chunks 50).map SiloNodeRec.parent
        = some 0
    ∧ (nodeRecAt (traceOfDC {} demoLocales demoCex3).chunks 50).map SiloNodeRec.parent
        = some 36
    ∧ (some 0 : Option Nat) ≠ some 36 :=
  ⟨rfl, rfl, by decide, by decide, by decide, by decide, by decide⟩

/-! ### The `NATIVE_LANGS` decision of start-element -/

theorem langLoop_eq_any (locales : List String) :
    ∀ (attrs : List (String × String)) (ign : Bool),
    langLoop locales attrs ign
      = (ign || attrs.any (fun nv => nv.1 == "xml:lang"
          && !(g_strv_contains locales nv.2)))
  | [], ign => by simp [langLoop]
  | nv :: rest, ign => by
    have hstep : langLoop locales (nv :: rest) ign
        = langLoop locales rest
          (if nv.1 == "xml:lang" && !(g_strv_contains locales nv.2) then true else ign) := rfl
    rw [hstep, langLoop_eq_any locales rest]
    cases hp : nv.1 == "xml:lang" && !(g_strv_contains locales nv.2) with
    | false => simp [hp]
    | true => simp [hp]

theorem map_battr_id : ∀ (l : List (String × String)),
    (l.map (fun nv => ({ name := nv.1, value := nv.2 } : BAttr))).map
      (fun a => (a.name, a.value)) = l
  | [] => rfl
  | nv :: rest => by
    rw [List.map_cons, List.map_cons, map_battr_id rest]

/-- The node pushed by start-element, spelled out. -/
theorem startEl_node (flags : Flags) (locales : List String) (h : PHelper)
    (name : String) (attrs : List (String × String)) :
    xb_builder_compile_start_element_cb flags locales h name attrs
      = { arena := h.arena ++
            [{ element := name,
               ignore := if !(cursorIgnored h) && flags.nativeLangs
                 then langLoop locales attrs (cursorIgnored h) else cursorIgnored h,
               attrs := if (if !(cursorIgnored h) && flags.nativeLangs
                     then langLoop locales attrs (cursorIgnored h) else cursorIgnored h)
                 then []
                 else attrs.map (fun nv => { name := nv.1, value := nv.2 }) }],
          stack := (some h.arena.length, []) :: h.stack } := rfl

/-- **C4** (confirmed).  With `NATIVE_LANGS` set, a start-element whose
parent is not ignored pushes a node that is ignored iff it carries some
`xml:lang` attribute whose value is outside the locale list; its attributes
are copied in declared order exactly when it is not ignored, so a surviving
node keeps its `xml:lang` attribute and an ignored node gets none. -/
theorem native_langs_ignore_iff (flags : Flags) (locales : List String)
    (h : PHelper) (name : String) (attrs : List (String × String))
    (hflag : flags.nativeLangs = true) (hpar : cursorIgnored h = false) :
    ∃ bn, xb_builder_compile_start_element_cb flags locales h name attrs
        = { arena := h.arena ++ [bn], stack := (some h.arena.length, []) :: h.stack }
      ∧ bn.element = name
      ∧ (bn.ignore = true ↔ ∃ nv ∈ attrs, nv.1 = "xml:lang"
            ∧ g_strv_contains locales nv.2 = false)
      ∧ (bn.ignore = false → bn.attrs.map (fun a => (a.name, a.value)) = attrs)
      ∧ (bn.ignore = true → bn.attrs = []) := by
  refine ⟨_, startEl_node flags locales h name attrs, rfl, ?_, ?_, ?_⟩
  · show (if !(cursorIgnored h) && flags.nativeLangs
        then langLoop locales attrs (cursorIgnored h) else cursorIgnored h) = true ↔ _
    rw [hpar, hflag, langLoop_eq_any]
    simp [List.any_eq_true, g_strv_contains]
  · intro h0
    show (if (if !(cursorIgnored h) && flags.nativeLangs
          then langLoop locales attrs (cursorIgnored h) else cursorIgnored h)
        then ([] : List BAttr)
        else attrs.map (fun nv => { name := nv.1, value := nv.2 })).map
          (fun a => (a.name, a.value)) = attrs
    have h0' : (if !(cursorIgnored h) && flags.nativeLangs
        then langLoop locales attrs (cursorIgnored h) else cursorIgnored h) = false := h0
    rw [if_neg (by rw [h0']; exact Bool.false_ne_true)]
    exact map_battr_id attrs
  · intro h1
    show (if (if !(cursorIgnored h) && flags.nativeLangs
          then langLoop locales attrs (cursorIgnored h) else cursorIgnored h)
        then ([] : List BAttr)
        else attrs.map (fun nv => { name := nv.1, value := nv.2 })) = []
    have h1' : (if !(cursorIgnored h) && flags.nativeLangs
        then langLoop locales attrs (cursorIgnored h) else cursorIgnored h) = true := h1
    rw [if_pos h1']

/-- Witness for C4: `<x xml:lang="fr">` pushed at the root cursor under
locales `en,C` is ignored and attribute-free. -/
theorem native_langs_ignore_iff_witness :
    ∃ bn, xb_builder_compile_start_element_cb { nativeLangs := true } demoLocales
        { arena := [], stack := [] } "x" [("xml:lang", "fr")]
      = { arena := ([] : Arena) ++ [bn],
          stack := [(some (List.length ([] : Arena)), [])] }
      ∧ bn.element = "x"
      ∧ (bn.ignore = true ↔ ∃ nv ∈ [("xml:lang", "fr")], nv.1 = "xml:lang"
            ∧ g_strv_contains demoLocales nv.2 = false)
      ∧ (bn.ignore = false →
          bn.attrs.map (fun a => (a.name, a.value)) = [("xml:lang", "fr")])
      ∧ (bn.ignore = true → bn.attrs = []) :=
  native_langs_ignore_iff { nativeLangs := true } demoLocales
    { arena := [], stack := [] } "x" [("xml:lang", "fr")] rfl (by decide)

/-! ### The `ensure` decision chain -/

/-- **C5** (confirmed).  `xb_builder_ensure` follows the claimed decision
order: a file silo whose guid equals the current silo's guid is answered by
the current silo unchanged; failing that, a file silo whose guid equals the
accumulator's guid rebinds to the file's silo; in every other case —
including a failed file load — ensure falls back to a full compile whose
result is persisted, a compile error or a failure of the final write being
surfaced to the caller. -/
theorem ensure_decision_order (cur : SiloT) (wantGuid : List Nat) (env : EnsureEnv) :
    (∀ tmp, env.fileSilo = some tmp → tmp.guid = cur.guid →
        xb_builder_ensure cur wantGuid env = .ok (cur, .reused))
    ∧ (∀ tmp, env.fileSilo = some tmp → tmp.guid ≠ cur.guid → tmp.guid = wantGuid →
        xb_builder_ensure cur wantGuid env = .ok (tmp, .rebound))
    ∧ ((env.fileSilo = none
          ∨ ∃ tmp, env.fileSilo = some tmp ∧ tmp.guid ≠ cur.guid ∧ tmp.guid ≠ wantGuid) →
        xb_builder_ensure cur wantGuid env = ensureFallback env)
    ∧ (∀ s, env.compileRes = .ok s → env.saveErr = none →
        ensureFallback env = .ok (s, .recompiled))
    ∧ (∀ s e, env.compileRes = .ok s → env.saveErr = some e →
        ensureFallback env = .error e)
    ∧ (∀ e, env.compileRes = .error e → ensureFallback env = .error e) := by
  refine ⟨?_, ?_, ?_, ?_, ?_, ?_⟩
  · intro tmp hf hg
    simp only [xb_builder_ensure, hf]
    rw [if_pos hg]
  · intro tmp hf hne hg
    simp only [xb_builder_ensure, hf]
    rw [if_neg hne, if_pos hg]
  · rintro (hf | ⟨tmp, hf, hne, hnw⟩)
    · simp only [xb_builder_ensure, hf]
    · simp only [xb_builder_ensure, hf]
      rw [if_neg hne, if_neg hnw]
  · intro s hc hs
    simp only [ensureFallback, hc, hs]
  · intro s e hc hs
    simp only [ensureFallback, hc, hs]
  · intro e hc
    simp only [ensureFallback, hc]

/-- Witness for C5: all four outcomes on concrete environments. -/
theorem ensure_decision_order_witness :
    xb_builder_ensure ⟨[1], [2]⟩ [9]
        { fileSilo := some ⟨[1], [7]⟩, compileRes := .ok ⟨[9], [8]⟩, saveErr := none }
      = .ok (⟨[1], [2]⟩, .reused)
    ∧ xb_builder_ensure ⟨[1], [2]⟩ [9]
        { fileSilo := some ⟨[9], [7]⟩, compileRes := .ok ⟨[9], [8]⟩, saveErr := none }
      = .ok (⟨[9], [7]⟩, .rebound)
    ∧ xb_builder_ensure ⟨[1], [2]⟩ [9]
        { fileSilo := none, compileRes := .ok ⟨[9], [8]⟩, saveErr := none }
      = .ok (⟨[9], [8]⟩, .recompiled)
    ∧ xb_builder_ensure ⟨[1], [2]⟩ [9]
        { fileSilo := some ⟨[5], [7]⟩, compileRes := .ok ⟨[9], [8]⟩,
          saveErr := some ⟨.ioErr, "write failed"⟩ }
      = .error ⟨.ioErr, "write failed"⟩ :=
  ⟨(ensure_decision_order ⟨[1], [2]⟩ [9] _).1 ⟨[1], [7]⟩ rfl rfl,
   (ensure_decision_order ⟨[1], [2]⟩ [9] _).2.1 ⟨[9], [7]⟩ rfl (by decide) rfl,
   ((ensure_decision_order ⟨[1], [2]⟩ [9] _).2.2.1 (Or.inl rfl)).trans
     ((ensure_decision_order ⟨[1], [2]⟩ [9] _).2.2.2.1 ⟨[9], [8]⟩ rfl rfl),
   ((ensure_decision_order ⟨[1], [2]⟩ [9] _).2.2.1
       (Or.inr ⟨⟨[5], [7]⟩, rfl, by decide, by decide⟩)).trans
     ((ensure_decision_order ⟨[1], [2]⟩ [9] _).2.2.2.2.1 ⟨[9], [8]⟩
       ⟨.ioErr, "write failed"⟩ rfl rfl)⟩

/-! ### The GUID accumulator -/

/-- **C6** (confirmed).  `append_guid` prefixes the token with `&` exactly
when the accumulator is already non-empty, so the identities `u` then `v`
accumulate to `u&v` and the swapped order to `v&u`; the two orders give
different header guid fields, and every successful compile stamps the header
with the guid field of the builder's accumulator. -/
theorem append_guid_order :
    (∀ tok, xb_builder_append_guid "" tok = tok)
    ∧ (∀ self tok : String, self.length > 0 →
        xb_builder_append_guid self tok = (self ++ "&") ++ tok)
    ∧ demoUV.guid = "u&v"
    ∧ demoVU.guid = "v&u"
    ∧ headerGuidField demoUV.guid ≠ headerGuidField demoVU.guid
    ∧ ∀ (flags : Flags) (locales : List String) (b : Builder) (t : CompileTrace),
        compileTrace graftRef flags locales b = .ok t →
        t.hdr.guid = headerGuidField b.guid := by
  refine ⟨fun tok => rfl, fun self tok hlen => ?_, by decide, by decide, by decide,
    fun flags locales b t himp => ?_⟩
  · unfold xb_builder_append_guid
    rw [if_pos hlen]
  · obtain ⟨a0, k0, -, ht⟩ := compileTrace_ok _ _ _ _ _ himp
    subst ht
    rw [compileTables_hdr]

/-- Witness for C6: appending `v` to the non-empty accumulator `u`, and the
header guid of the compiled `u`-then-`v` builder. -/
theorem append_guid_order_witness :
    xb_builder_append_guid "u" "v" = ("u" ++ "&") ++ "v"
    ∧ (traceOf {} demoLocales demoUV).hdr.guid = headerGuidField demoUV.guid :=
  ⟨append_guid_order.2.1 "u" "v" (by decide),
   append_guid_order.2.2.2.2.2 {} demoLocales demoUV (traceOf {} demoLocales demoUV) rfl⟩

/-! ### The string interner -/

theorem strtabLookup_none_notmem (tbl : List (String × Nat)) (s : String)
    (h : strtabLookup tbl s = none) : ∀ p ∈ tbl, p.1 ≠ s := by
  intro p hp
  unfold strtabLookup at h
  have hf := Option.map_eq_none'.mp h
  have := List.find?_eq_none.mp hf p hp
  simpa using this

theorem strtab_add_hit (st : Strtab) (s : String) (idx : Nat)
    (h : strtabLookup st.tbl s = some idx) :
    xb_builder_compile_add_to_strtab st s = (st, idx) := by
  simp only [xb_builder_compile_add_to_strtab, h]

theorem strtab_add_miss (st : Strtab) (s : String)
    (h : strtabLookup st.tbl s = none) :
    xb_builder_compile_add_to_strtab st s
      = ({ buf := st.buf ++ s.toList ++ [nulChar],
           tbl := st.tbl ++ [(s, st.buf.length)] }, st.buf.length) := by
  simp only [xb_builder_compile_add_to_strtab, h]

theorem takeWhile_prefix_stop (p : Char → Bool) :
    ∀ (l : List Char), l.all p = true → ∀ (c : Char) (rest : List Char), p c = false →
    (l ++ c :: rest).takeWhile p = l
  | [], _, c, rest, hc => by simp [hc]
  | x :: xs, hall, c, rest, hc => by
    rw [List.all_cons, Bool.and_eq_true] at hall
    rw [List.cons_append, List.takeWhile_cons, if_pos hall.1,
      takeWhile_prefix_stop p xs hall.2 c rest hc]

theorem readStr_recorded (st : Strtab) (hinv : StrtabInv st) :
    ∀ p ∈ st.tbl, readStr st.buf p.2 = p.1.toList := by
  intro p hp
  obtain ⟨hn, rest, hdrop⟩ := hinv.1 p hp
  unfold readStr
  rw [hdrop]
  exact takeWhile_prefix_stop _ p.1.toList (by simpa [noNul] using hn) nulChar rest
    (by simp)

theorem strtabInv_add (st : Strtab) (s : String) (hinv : StrtabInv st)
    (hs : noNul s = true) :
    StrtabInv (xb_builder_compile_add_to_strtab st s).1 := by
  cases h : strtabLookup st.tbl s with
  | some idx => rw [strtab_add_hit st s idx h]; exact hinv
  | none =>
    rw [strtab_add_miss st s h]
    constructor
    · intro p hp
      rcases List.mem_append.mp hp with hold | hnew
      · obtain ⟨hn, rest, hdrop⟩ := hinv.1 p hold
        refine ⟨hn, rest ++ (s.toList ++ [nulChar]), ?_⟩
        have hlt : p.2 < st.buf.length := by
          by_contra hge
          rw [List.drop_eq_nil_of_le (by omega)] at hdrop
          exact absurd hdrop (by simp)
        show ((st.buf ++ s.toList) ++ [nulChar]).drop p.2 = _
        rw [List.append_assoc, List.drop_append_of_le_length (le_of_lt hlt), hdrop]
        simp
      · have hp' : p = (s, st.buf.length) := by simpa using hnew
        subst hp'
        refine ⟨hs, [], ?_⟩
        show ((st.buf ++ s.toList) ++ [nulChar]).drop st.buf.length
          = s.toList ++ nulChar :: []
        rw [List.append_assoc, List.drop_left]
    · show ((st.tbl ++ [(s, st.buf.length)]).map Prod.fst).Nodup
      rw [List.map_append]
      refine List.Nodup.append hinv.2 (by simp) ?_
      intro a ha hb
      have hb' : a = s := by simpa using hb
      subst hb'
      obtain ⟨p, hp, hps⟩ := List.mem_map.mp ha
      exact strtabLookup_none_notmem st.tbl a h p hp hps

theorem strtabInv_empty : StrtabInv {} := by
  constructor
  · intro p hp
    exact absurd hp (List.not_mem_nil p)
  · exact List.nodup_nil

theorem strtabInv_internAll (ss : List String) (hss : ∀ s ∈ ss, noNul s = true) :
    StrtabInv (internAll ss) := by
  suffices h : ∀ (l : List String) (st : Strtab), (∀ s ∈ l, noNul s = true) →
      StrtabInv st →
      StrtabInv (l.foldl (fun st s => (xb_builder_compile_add_to_strtab st s).1) st) by
    exact h ss {} hss strtabInv_empty
  intro l
  induction l with
  | nil => intro st _ hinv; exact hinv
  | cons s rest ih =>
    intro st hl hinv
    rw [List.foldl_cons]
    exact ih _ (fun x hx => hl x (List.mem_cons_of_mem s hx))
      (strtabInv_add st s hinv (hl s (List.mem_cons_self s rest)))

theorem strtab_distinct_offsets (st : Strtab) (hinv : StrtabInv st) :
    ∀ p ∈ st.tbl, ∀ q ∈ st.tbl, p.2 ≠ q.2 →
      readStr st.buf p.2 ≠ readStr st.buf q.2 := by
  intro p hp q hq hne heq
  rw [readStr_recorded st hinv p hp, readStr_recorded st hinv q hq] at heq
  have h1 : p.1 = q.1 := String.ext heq
  have h2 : p = q := List.inj_on_of_nodup_map hinv.2 hp hq h1
  exact hne (congrArg Prod.snd h2)

/-- **C7** (confirmed).  The interner deduplicates: a hit returns the
previously recorded offset and leaves the table untouched, a miss appends the
string plus its NUL terminator at the current end of the buffer and records
that offset; interning NUL-free strings preserves the table invariant (every
recorded offset points at its NUL-terminated string, recorded strings are
pairwise distinct), under which the strings read back at any two distinct
recorded offsets differ. -/
theorem strtab_dedup_invariant :
    (∀ (st : Strtab) (s : String) (idx : Nat), strtabLookup st.tbl s = some idx →
        xb_builder_compile_add_to_strtab st s = (st, idx))
    ∧ (∀ (st : Strtab) (s : String), strtabLookup st.tbl s = none →
        xb_builder_compile_add_to_strtab st s
          = ({ buf := st.buf ++ s.toList ++ [nulChar],
               tbl := st.tbl ++ [(s, st.buf.length)] }, st.buf.length))
    ∧ (∀ (st : Strtab) (s : String), StrtabInv st → noNul s = true →
        StrtabInv (xb_builder_compile_add_to_strtab st s).1)
    ∧ (∀ (ss : List String), (∀ s ∈ ss, noNul s = true) → StrtabInv (internAll ss))
    ∧ ∀ (st : Strtab), StrtabInv st → ∀ p ∈ st.tbl, ∀ q ∈ st.tbl, p.2 ≠ q.2 →
        readStr st.buf p.2 ≠ readStr st.buf q.2 :=
  ⟨strtab_add_hit, strtab_add_miss, strtabInv_add, strtabInv_internAll,
   strtab_distinct_offsets⟩

/-- Witness for C7 on the table holding `a` and `b`: re-interning `a` is a
no-op returning offset 0, the invariant holds, and the strings at the two
recorded offsets 0 and 2 differ. -/
theorem strtab_dedup_invariant_witness :
    xb_builder_compile_add_to_strtab (internAll ["a", "b"]) "a"
      = (internAll ["a", "b"], 0)
    ∧ StrtabInv (internAll ["a", "b"])
    ∧ readStr (internAll ["a", "b"]).buf 0 ≠ readStr (internAll ["a", "b"]).buf 2 :=
  ⟨strtab_dedup_invariant.1 (internAll ["a", "b"]) "a" 0 (by decide),
   strtab_dedup_invariant.2.2.2.1 ["a", "b"] (by decide),
   strtab_dedup_invariant.2.2.2.2 (internAll ["a", "b"])
     (strtab_dedup_invariant.2.2.2.1 ["a", "b"] (by decide))
     ("a", 0) (by decide) ("b", 2) (by decide) (by decide)⟩

/-! ### The per-import loop -/

theorem loop_step_err (flags : Flags) (locales : List String) (imp : Import)
    (imps : List Import) (arena : Arena) (kids : List GT) (e : XbErr)
    (h : (xb_builder_compile_import graftRef flags locales imp arena kids).2.2 = some e) :
    compileImportLoop graftRef flags locales (imp :: imps) arena kids
      = if flags.ignoreInvalid
        then compileImportLoop graftRef flags locales imps
          (xb_builder_compile_import graftRef flags locales imp arena kids).1
          (xb_builder_compile_import graftRef flags locales imp arena kids).2.1
        else .error { e with
          msg := "failed to compile " ++ imp.ident ++ ": " ++ e.msg } := by
  rw [compileImportLoop]
  split
  · rename_i e' heq
    rw [h] at heq
    cases heq
    rfl
  · rename_i heq
    rw [h] at heq
    exact absurd heq (by simp)

theorem loop_step_ok (flags : Flags) (locales : List String) (imp : Import)
    (imps : List Import) (arena : Arena) (kids : List GT)
    (h : (xb_builder_compile_import graftRef flags locales imp arena kids).2.2 = none) :
    compileImportLoop graftRef flags locales (imp :: imps) arena kids
      = compileImportLoop graftRef flags locales imps
          (xb_builder_compile_import graftRef flags locales imp arena kids).1
          (xb_builder_compile_import graftRef flags locales imp arena kids).2.1 := by
  rw [compileImportLoop]
  split
  · rename_i e' heq
    rw [h] at heq
    exact absurd heq (by simp)
  · rfl

theorem loop_ignore_invalid (flags : Flags) (locales : List String)
    (hflag : flags.ignoreInvalid = true) :
    ∀ (imps : List Import) (arena : Arena) (kids : List GT),
    compileImportLoop graftRef flags locales imps arena kids
      = .ok (loopState graftRef flags locales imps (arena, kids)) := by
  intro imps
  induction imps with
  | nil => intro arena kids; rfl
  | cons imp imps ih =>
    intro arena kids
    cases h2 : (xb_builder_compile_import graftRef flags locales imp arena kids).2.2 with
    | some e =>
      rw [loop_step_err flags locales imp imps arena kids e h2, if_pos hflag, ih]
      rfl
    | none =>
      rw [loop_step_ok flags locales imp imps arena kids h2, ih]
      rfl

/-- **C8** (confirmed).  Each import is parsed from a cursor freshly reset to
the synthetic root over the children accumulated so far; with
`IGNORE_INVALID` a failing import is skipped (its partial state threads on)
and the loop always succeeds with the folded state; without the flag, the
first failing import aborts the loop with its error wrapped in a prefix
naming the import. -/
theorem import_loop_error_handling :
    (∀ (flags : Flags) (locales : List String) (imp : Import) (arena : Arena)
        (kids : List GT),
      (xb_builder_compile_import graftRef flags locales imp arena kids).1
        = (runEvents graftRef flags locales imp.info
            { arena := arena, stack := [(none, kids)] } imp.events).arena)
    ∧ (∀ (flags : Flags) (locales : List String), flags.ignoreInvalid = true →
        ∀ (imps : List Import) (arena : Arena) (kids : List GT),
        compileImportLoop graftRef flags locales imps arena kids
          = .ok (loopState graftRef flags locales imps (arena, kids)))
    ∧ ∀ (flags : Flags) (locales : List String), flags.ignoreInvalid = false →
        ∀ (imp : Import) (imps : List Import) (arena : Arena) (kids : List GT)
          (e : XbErr),
        (xb_builder_compile_import graftRef flags locales imp arena kids).2.2 = some e →
        compileImportLoop graftRef flags locales (imp :: imps) arena kids
          = .error { e with
              msg := "failed to compile " ++ imp.ident ++ ": " ++ e.msg } := by
  refine ⟨compile_import_arena, loop_ignore_invalid, ?_⟩
  intro flags locales hflag imp imps arena kids e h2
  rw [loop_step_err flags locales imp imps arena kids e h2,
    if_neg (by rw [hflag]; exact Bool.false_ne_true)]

/-- Witness for C8: the unterminated import `<a>` is skipped under
`IGNORE_INVALID` and aborts the compile with the prefixed `Mismatched XML`
error without it. -/
theorem import_loop_error_handling_witness :
    (xb_builder_compile_import graftRef { ignoreInvalid := true } demoLocales
        { ident := "bad", events := [.start "a" []] } [] []).1
      = (runEvents graftRef { ignoreInvalid := true } demoLocales none
          { arena := [], stack := [(none, [])] } [.start "a" []]).arena
    ∧ compileImportLoop graftRef { ignoreInvalid := true } demoLocales
        [{ ident := "bad", events := [.start "a" []] }] [] []
      = .ok (loopState graftRef { ignoreInvalid := true } demoLocales
          [{ ident := "bad", events := [.start "a" []] }] ([], []))
    ∧ compileImportLoop graftRef {} demoLocales
        [{ ident := "bad", events := [.start "a" []] }] [] []
      = .error { mismatchedXml with
          msg := "failed to compile " ++ "bad" ++ ": " ++ mismatchedXml.msg } :=
  ⟨import_loop_error_handling.1 { ignoreInvalid := true } demoLocales
     { ident := "bad", events := [.start "a" []] } [] [],
   import_loop_error_handling.2.1 { ignoreInvalid := true } demoLocales rfl
     [{ ident := "bad", events := [.start "a" []] }] [] [],
   import_loop_error_handling.2.2 {} demoLocales rfl
     { ident := "bad", events := [.start "a" []] } [] [] [] mismatchedXml (by decide)⟩

/-! ### Stream-end balance and `Mismatched XML` -/

theorem textEl_stack (flags : Flags) (h : PHelper) (s : String) :
    (xb_builder_compile_text_cb flags h s).stack = h.stack := by
  unfold xb_builder_compile_text_cb
  split
  · split
    · rfl
    · split
      · rfl
      · split
        · rfl
        · rfl
  · rfl

theorem endEl_stack_length (g : GraftFn) (info : Option Nat) (arena : Arena)
    (f : Option Nat × List GT) (rest : List (Option Nat × List GT)) :
    (xb_builder_compile_end_element_cb g info ⟨arena, f :: rest⟩).stack.length
      = rest.length := by
  obtain ⟨cb, ckids⟩ := f
  cases cb with
  | some b =>
    cases rest with
    | nil => rfl
    | cons p rest2 =>
      obtain ⟨pb, pkids⟩ := p
      rfl
  | none =>
    cases rest with
    | nil => rfl
    | cons p rest2 => rfl

theorem balStep_false : ∀ (es : List XEvent) (c : Nat),
    (es.foldl balStep (false, c)).1 = false
  | [], _ => rfl
  | .start _ _ :: es, c => balStep_false es (c + 1)
  | .endE :: es, c => balStep_false es (c - 1)
  | .text _ :: es, c => balStep_false es c

theorem bal_end_pos (es : List XEvent) (c : Nat)
    (hb : ((XEvent.endE :: es).foldl balStep (true, c)).1 = true) : 0 < c := by
  by_contra hc
  have hc0 : c = 0 := by omega
  subst hc0
  have hz : ((XEvent.endE :: es).foldl balStep (true, 0)).1 = false :=
    balStep_false es 0
  rw [hz] at hb
  exact absurd hb (by simp)

theorem bal_counter : ∀ (es : List XEvent) (c : Nat),
    (es.foldl balStep (true, c)).1 = true →
    (es.foldl balStep (true, c)).2 + nEnds es = c + nStarts es
  | [], c, _ => by simp [nStarts, nEnds]
  | .start n a :: es, c, hb => by
    have ih := bal_counter es (c + 1) hb
    have h1 : nStarts (.start n a :: es) = nStarts es + 1 := by
      simp [nStarts, List.countP_cons]
    have h2 : nEnds (.start n a :: es) = nEnds es := by
      simp [nEnds, List.countP_cons]
    show (es.foldl balStep (true, c + 1)).2 + nEnds (XEvent.start n a :: es)
      = c + nStarts (XEvent.start n a :: es)
    omega
  | .endE :: es, c, hb => by
    have hpos : 0 < c := bal_end_pos es c hb
    have hb' : (es.foldl balStep (true, c - 1)).1 = true := by
      have : balStep (true, c) XEvent.endE = (true, c - 1) := by
        simp [balStep, hpos]
      rw [List.foldl_cons, this] at hb
      exact hb
    have ih := bal_counter es (c - 1) hb'
    have h1 : nStarts (XEvent.endE :: es) = nStarts es := by
      simp [nStarts, List.countP_cons]
    have h2 : nEnds (XEvent.endE :: es) = nEnds es + 1 := by
      simp [nEnds, List.countP_cons]
    have h3 : ((XEvent.endE :: es).foldl balStep (true, c)).2
        = (es.foldl balStep (true, c - 1)).2 := by
      rw [List.foldl_cons]
      have : balStep (true, c) XEvent.endE = (true, c - 1) := by
        simp [balStep, hpos]
      rw [this]
    omega
  | .text s :: es, c, hb => by
    have ih := bal_counter es c hb
    have h1 : nStarts (XEvent.text s :: es) = nStarts es := by
      simp [nStarts, List.countP_cons]
    have h2 : nEnds (XEvent.text s :: es) = nEnds es := by
      simp [nEnds, List.countP_cons]
    show (es.foldl balStep (true, c)).2 + nEnds (XEvent.text s :: es)
      = c + nStarts (XEvent.text s :: es)
    omega

theorem run_stack_len (g : GraftFn) (flags : Flags) (locales : List String)
    (info : Option Nat) :
    ∀ (es : List XEvent) (h : PHelper) (c : Nat),
    (es.foldl balStep (true, c)).1 = true →
    h.stack.length = c + 1 →
    (runEvents g flags locales info h es).stack.length
      = (es.foldl balStep (true, c)).2 + 1 := by
  intro es
  induction es with
  | nil => intro h c _ hlen; exact hlen
  | cons e es ih =>
    intro h c hb hlen
    cases e with
    | start name attrs =>
      have hstep : runEvents g flags locales info h (XEvent.start name attrs :: es)
          = runEvents g flags locales info
              (xb_builder_compile_start_element_cb flags locales h name attrs) es := rfl
      rw [hstep]
      exact ih (xb_builder_compile_start_element_cb flags locales h name attrs)
        (c + 1) hb (by simp [startEl_node, hlen])
    | endE =>
      have hstep : runEvents g flags locales info h (XEvent.endE :: es)
          = runEvents g flags locales info
              (xb_builder_compile_end_element_cb g info h) es := rfl
      rw [hstep]
      have hpos : 0 < c := bal_end_pos es c hb
      have hb' : (es.foldl balStep (true, c - 1)).1 = true := by
        have hred : balStep (true, c) XEvent.endE = (true, c - 1) := by
          simp [balStep, hpos]
        rw [List.foldl_cons, hred] at hb
        exact hb
      have hcount : ((XEvent.endE :: es).foldl balStep (true, c)).2
          = (es.foldl balStep (true, c - 1)).2 := by
        rw [List.foldl_cons]
        have hred : balStep (true, c) XEvent.endE = (true, c - 1) := by
          simp [balStep, hpos]
        rw [hred]
      rw [hcount]
      cases hs : h.stack with
      | nil => rw [hs] at hlen; simp at hlen
      | cons f rest =>
        have hrest : rest.length = (c - 1) + 1 := by
          rw [hs] at hlen
          simp at hlen
          omega
        have hh : h = ⟨h.arena, f :: rest⟩ := by
          obtain ⟨a2, s2⟩ := h
          simp at hs ⊢
          exact hs
        rw [hh]
        exact ih (xb_builder_compile_end_element_cb g info ⟨h.arena, f :: rest⟩)
          (c - 1) hb'
          (by rw [endEl_stack_length g info h.arena f rest]; exact hrest)
    | text s =>
      have hstep : runEvents g flags locales info h (XEvent.text s :: es)
          = runEvents g flags locales info
              (xb_builder_compile_text_cb flags h s) es := rfl
      rw [hstep]
      exact ih (xb_builder_compile_text_cb flags h s) c hb
        (by rw [textEl_stack]; exact hlen)

/-- **C9** (confirmed).  For an import whose stream is exhausted without a
read or parse error (no tail error; the tokenizer delivers a stream no prefix
of which closes more elements than it opened), the import fails with the
InvalidData error `Mismatched XML` iff some element was opened but never
closed (the start and end counts differ, leaving the cursor away from the
synthetic root), and succeeds iff the counts match. -/
theorem mismatched_xml_iff (flags : Flags) (locales : List String) (imp : Import)
    (arena : Arena) (kids : List GT)
    (hbal : balancedPrefixes imp.events = true)
    (htail : imp.tailErr = none) :
    mismatchedXml = { kind := XbErrKind.invalidData, msg := "Mismatched XML" }
    ∧ ((xb_builder_compile_import graftRef flags locales imp arena kids).2.2
        = some mismatchedXml ↔ nStarts imp.events ≠ nEnds imp.events)
    ∧ ((xb_builder_compile_import graftRef flags locales imp arena kids).2.2
        = none ↔ nStarts imp.events = nEnds imp.events) := by
  have hb0 : (imp.events.foldl balStep (true, 0)).1 = true := hbal
  have hsl : (runEvents graftRef flags locales imp.info
        ⟨arena, [(none, kids)]⟩ imp.events).stack.length
      = (imp.events.foldl balStep (true, 0)).2 + 1 :=
    run_stack_len graftRef flags locales imp.info imp.events
      ⟨arena, [(none, kids)]⟩ 0 hb0 rfl
  have hc := bal_counter imp.events 0 hb0
  by_cases hlen : (runEvents graftRef flags locales imp.info
      ⟨arena, [(none, kids)]⟩ imp.events).stack.length = 1
  · have herr : (xb_builder_compile_import graftRef flags locales imp arena kids).2.2
        = none := by
      unfold xb_builder_compile_import
      split
      · rename_i e heq
        rw [htail] at heq
        exact absurd heq (by simp)
      · show (if (runEvents graftRef flags locales imp.info
              { arena := arena, stack := [(none, kids)] } imp.events).stack.length = 1
            then ((runEvents graftRef flags locales imp.info
                { arena := arena, stack := [(none, kids)] } imp.events).arena,
              commitStack (runEvents graftRef flags locales imp.info
                { arena := arena, stack := [(none, kids)] } imp.events).stack [],
              (none : Option XbErr))
            else ((runEvents graftRef flags locales imp.info
                { arena := arena, stack := [(none, kids)] } imp.events).arena,
              commitStack (runEvents graftRef flags locales imp.info
                { arena := arena, stack := [(none, kids)] } imp.events).stack [],
              some mismatchedXml)).2.2 = none
        rw [if_pos hlen]
    have heq : nStarts imp.events = nEnds imp.events := by omega
    refine ⟨rfl, ⟨?_, ?_⟩, fun _ => heq, fun _ => herr⟩
    · intro he
      rw [herr] at he
      exact absurd he (by simp)
    · intro hne
      exact absurd heq hne
  · have herr : (xb_builder_compile_import graftRef flags locales imp arena kids).2.2
        = some mismatchedXml := by
      unfold xb_builder_compile_import
      split
      · rename_i e heq
        rw [htail] at heq
        exact absurd heq (by simp)
      · show (if (runEvents graftRef flags locales imp.info
              { arena := arena, stack := [(none, kids)] } imp.events).stack.length = 1
            then ((runEvents graftRef flags locales imp.info
                { arena := arena, stack := [(none, kids)] } imp.events).arena,
              commitStack (runEvents graftRef flags locales imp.info
                { arena := arena, stack := [(none, kids)] } imp.events).stack [],
              (none : Option XbErr))
            else ((runEvents graftRef flags locales imp.info
                { arena := arena, stack := [(none, kids)] } imp.events).arena,
              commitStack (runEvents graftRef flags locales imp.info
                { arena := arena, stack := [(none, kids)] } imp.events).stack [],
              some mismatchedXml)).2.2 = some mismatchedXml
        rw [if_neg hlen]
    have hne : nStarts imp.events ≠ nEnds imp.events := by omega
    refine ⟨rfl, ⟨fun _ => hne, fun _ => herr⟩, ?_, ?_⟩
    · intro he
      rw [herr] at he
      exact absurd he (by simp)
    · intro heq
      exact absurd heq hne

/-- Witness for C9: the unclosed `<a>` yields `Mismatched XML`; the closed
`<a></a>` succeeds. -/
theorem mismatched_xml_iff_witness :
    ((xb_builder_compile_import graftRef {} demoLocales
          { ident := "m1", events := [.start "a" []] } [] []).2.2
        = some mismatchedXml
      ↔ nStarts [XEvent.start "a" []] ≠ nEnds [XEvent.start "a" []])
    ∧ ((xb_builder_compile_import graftRef {} demoLocales
          { ident := "m2", events := [.start "a" [], .endE] } [] []).2.2
        = none
      ↔ nStarts [XEvent.start "a" [], XEvent.endE]
        = nEnds [XEvent.start "a" [], XEvent.endE]) :=
  ⟨(mismatched_xml_iff {} demoLocales { ident := "m1", events := [.start "a" []] }
      [] [] (by decide) rfl).2.1,
   (mismatched_xml_iff {} demoLocales { ident := "m2", events := [.start "a" [], .endE] }
      [] [] (by decide) rfl).2.2⟩

/-! ### The empty accumulator -/

theorem compile_hdr_chunk (b : Builder) (a0 : Arena) (k0 : List GT) :
    ∃ tl, (compileTables b a0 k0).chunks
      = Chunk.headerC (compileTables b a0 k0).hdr :: tl := by
  obtain ⟨d1, h1⟩ := emit_chunks_ext (compileTables b a0 k0).items
    { arena := (compileTables b a0 k0).arenaB
      chunks := [Chunk.headerC (compileTables b a0 k0).hdr]
      level := 0 }
  obtain ⟨d2, h2⟩ := emitTrailing_chunks_ext ((compileTables b a0 k0).items.foldl
    xb_builder_nodetab_write_cb
    { arena := (compileTables b a0 k0).arenaB
      chunks := [Chunk.headerC (compileTables b a0 k0).hdr]
      level := 0 })
  have hchunks : (compileTables b a0 k0).emitSt.chunks
      = Chunk.headerC (compileTables b a0 k0).hdr :: (d1 ++ d2) := by
    rw [compileTables_emitSt, h2, h1]
    simp
  obtain ⟨tl2, h3⟩ := fix_head_keep (compileTables b a0 k0).emitSt.arena
    (compileTables b a0 k0).hdr (compileTables b a0 k0).items (d1 ++ d2)
  refine ⟨tl2, ?_⟩
  rw [compileTables_chunks, hchunks]
  exact h3

/-- **C10** (confirmed).  When the GUID accumulator is empty (as when
no import was ever added), the header guid field is the 16 zero bytes — the hash
is skipped — and a compile of an import-less builder still succeeds,
producing a blob whose header chunk carries that all-zero guid. -/
theorem empty_guid_zero_header (flags : Flags) (locales : List String) (b : Builder)
    (hg : b.guid = "") (hi : b.imports = []) :
    headerGuidField b.guid = List.replicate 16 0
    ∧ ∃ blob, xb_builder_compile flags locales b = .ok blob
        ∧ (blobHdr blob).guid = List.replicate 16 0 := by
  have hguid : headerGuidField b.guid = List.replicate 16 0 := by
    rw [hg]
    rfl
  refine ⟨hguid, ?_⟩
  have hloop : compileImportLoop graftRef flags locales b.imports b.arena []
      = .ok (b.arena, []) := by
    rw [hi]
    rfl
  have htr : compileTrace graftRef flags locales b
      = .ok (compileTables b b.arena []) := by
    unfold compileTrace
    rw [hloop]
  refine ⟨{ chunks := (compileTables b b.arena []).chunks
            strtab := (compileTables b b.arena []).strtab.buf }, ?_, ?_⟩
  · simp only [xb_builder_compile, htr]
  · obtain ⟨tl, hch⟩ := compile_hdr_chunk b b.arena []
    show (blobHdr { chunks := (compileTables b b.arena []).chunks
                    strtab := (compileTables b b.arena []).strtab.buf }).guid
      = List.replicate 16 0
    simp only [blobHdr, hch]
    rw [compileTables_hdr]
    exact hguid

/-- Witness for C10: the default builder compiles to a blob with the all-zero
header guid. -/
theorem empty_guid_zero_header_witness :
    headerGuidField (({} : Builder)).guid = List.replicate 16 0
    ∧ ∃ blob, xb_builder_compile {} demoLocales {} = .ok blob
        ∧ (blobHdr blob).guid = List.replicate 16 0 :=
  empty_guid_zero_header {} demoLocales {} rfl rfl

end Xb
